import Mathlib

/-!
Verification development for the poll2 DAQ core (`Poll/source/poll2_core.cpp`).

The definitions below are a shallow embedding of the run controller, the
FIFO drain / spill assembler (`Poll::ReadFIFO`), the broadcaster
(`Poll::broadcast_data`), the file writer (`Poll::write_data` together with
`open_output_file` / `close_output_file`), the command dispatcher
(`Poll::command_control`) and the run-control tick (`Poll::run_control`).
Hardware and terminal effects are represented by explicit oracle inputs;
32-bit words are modelled as natural numbers (all quantities that the code
computes stay far below 2^32 on the reachable configurations considered
here).
-/

namespace Poll2

/-- Hardware 32-bit word, modelled as a natural number. -/
abbrev Word := Nat

/-- POLL_TRIES (poll2_core.cpp line 50). -/
def POLL_TRIES : Nat := 100

/-- MAX_FILE_SIZE: 4 GB ceiling for output files (poll2_core.cpp line 53). -/
def MAX_FILE_SIZE : Nat := 4294967296

/-- Slot field of an event header: `(w & 0xF0) >> 4` (ReadFIFO line 1241). -/
def slotRead (w : Word) : Nat := (w.land 0xF0) >>> 4

/-- Channel field of an event header: `w & 0xF` (ReadFIFO line 1243). -/
def chanRead (w : Word) : Nat := w.land 0xF

/-- Event-size field of an event header: `(w & 0x7FFE2000) >> 17` (ReadFIFO line 1244). -/
def eventSize (w : Word) : Nat := (w.land 0x7FFE2000) >>> 17

/-- Virtual-channel flag of an event header: `(w & 0x20000000) != 0` (ReadFIFO line 1245). -/
def virtualChannel (w : Word) : Bool := w.land 0x20000000 ≠ 0

/-- Word `fifoData[p]` at offset `p` of a data region. -/
def wordAt (data : List Word) (p : Nat) : Word := data.getD p 0

/-- Static configuration of the drain: number of cards, the spill threshold
`threshWords`, the constants `EXTERNAL_FIFO_LENGTH` and `MIN_FIFO_READ`
(from the PixieInterface headers), and the expected slot of each module
(`pif->GetSlotNumber`). -/
structure DrainCfg where
  nCards : Nat
  threshWords : Nat
  extFifoLen : Nat
  minFifoRead : Nat
  slotOf : Nat → Nat

/-- The event-parsing loop of `Poll::ReadFIFO` (lines 1235-1269), relative to
the start of one module's data region.  `data` is the region contents
(carried-over words followed by the freshly read FIFO words), `n` its word
count, `p` the running parse cursor and `es` the most recently read event
size (declared outside the loop in the source).  Returns the final cursor
and the last event size; a header whose slot, channel or size check fails
breaks out of the loop, leaving the cursor strictly below `n`. -/
def parseLoopAux (cfg : DrainCfg) (m : Nat) (data : List Word) (n : Nat) :
    Nat → Nat → Nat → Nat × Nat
  | 0, p, es => (p, es)
  | k + 1, p, es =>
    if p < n then
      if slotRead (wordAt data p) ≠ cfg.slotOf m then (p, eventSize (wordAt data p))
      else if 15 < chanRead (wordAt data p) then (p, eventSize (wordAt data p))
      else if eventSize (wordAt data p) = 0 then (p, eventSize (wordAt data p))
      else parseLoopAux cfg m data n k (p + eventSize (wordAt data p))
        (eventSize (wordAt data p))
    else (p, es)

/-- The loop makes at most `n - p` passes (the cursor advances by at least
one word per pass), so `n - p` units of fuel always suffice. -/
def parseLoop (cfg : DrainCfg) (m : Nat) (data : List Word) (n p es : Nat) : Nat × Nat :=
  parseLoopAux cfg m data n (n - p) p es

theorem parseLoopAux_fuel (cfg : DrainCfg) (m : Nat) (data : List Word) (n : Nat) :
    ∀ (k k' p es : Nat), n - p ≤ k → n - p ≤ k' →
      parseLoopAux cfg m data n k p es = parseLoopAux cfg m data n k' p es := by
  intro k
  induction k with
  | zero =>
    intro k' p es hk hk'
    have hp : ¬ p < n := by omega
    cases k' with
    | zero => rfl
    | succ k'' =>
      show (p, es) = parseLoopAux cfg m data n (k'' + 1) p es
      unfold parseLoopAux
      rw [if_neg hp]
  | succ k ih =>
    intro k' p es hk hk'
    cases k' with
    | zero =>
      have hp : ¬ p < n := by omega
      show parseLoopAux cfg m data n (k + 1) p es = (p, es)
      unfold parseLoopAux
      rw [if_neg hp]
    | succ k'' =>
      show parseLoopAux cfg m data n (k + 1) p es = parseLoopAux cfg m data n (k'' + 1) p es
      unfold parseLoopAux
      by_cases hp : p < n
      · rw [if_pos hp, if_pos hp]
        by_cases h1 : slotRead (wordAt data p) ≠ cfg.slotOf m
        · rw [if_pos h1, if_pos h1]
        rw [if_neg h1, if_neg h1]
        by_cases h2 : 15 < chanRead (wordAt data p)
        · rw [if_pos h2, if_pos h2]
        rw [if_neg h2, if_neg h2]
        by_cases h3 : eventSize (wordAt data p) = 0
        · rw [if_pos h3, if_pos h3]
        rw [if_neg h3, if_neg h3]
        exact ih k'' (p + eventSize (wordAt data p)) (eventSize (wordAt data p))
          (by omega) (by omega)
      · rw [if_neg hp, if_neg hp]

/-- One unfolding of the parse loop, in the shape of the source loop
(ReadFIFO lines 1238-1269). -/
theorem parseLoop_eq (cfg : DrainCfg) (m : Nat) (data : List Word) (n p es : Nat) :
    parseLoop cfg m data n p es =
      if p < n then
        if slotRead (wordAt data p) ≠ cfg.slotOf m then (p, eventSize (wordAt data p))
        else if 15 < chanRead (wordAt data p) then (p, eventSize (wordAt data p))
        else if eventSize (wordAt data p) = 0 then (p, eventSize (wordAt data p))
        else parseLoop cfg m data n (p + eventSize (wordAt data p))
          (eventSize (wordAt data p))
      else (p, es) := by
  unfold parseLoop
  by_cases hp : p < n
  · have hk : n - p = (n - p - 1) + 1 := by omega
    rw [hk]
    conv_lhs => rw [parseLoopAux]
    rw [if_pos hp, if_pos hp]
    by_cases h1 : slotRead (wordAt data p) ≠ cfg.slotOf m
    · rw [if_pos h1, if_pos h1]
    rw [if_neg h1, if_neg h1]
    by_cases h2 : 15 < chanRead (wordAt data p)
    · rw [if_pos h2, if_pos h2]
    rw [if_neg h2, if_neg h2]
    by_cases h3 : eventSize (wordAt data p) = 0
    · rw [if_pos h3, if_pos h3]
    rw [if_neg h3, if_neg h3]
    exact parseLoopAux_fuel cfg m data n (n - p - 1)
      (n - (p + eventSize (wordAt data p))) (p + eventSize (wordAt data p))
      (eventSize (wordAt data p)) (by omega) (by omega)
  · have hk : n - p = 0 := by omega
    rw [hk]
    show (p, es) = _
    rw [if_neg hp]

/-- Outcome of handling one module inside the drain loop of `Poll::ReadFIFO`
(lines 1176-1309). -/
inductive ModStep where
  /-- Case `nWords[mod] < MIN_FIFO_READ`: emit `[2, mod]` (lines 1179-1184). -/
  | empty : ModStep
  /-- Case `nWords[mod] >= EXTERNAL_FIFO_LENGTH`: full-FIFO abort (lines 1193-1202). -/
  | abortFull : ModStep
  /-- Read failure of `pif->ReadFIFOWords` (lines 1214-1219). -/
  | abortRead : ModStep
  /-- parse stopped short of the region end: corrupted data (lines 1287-1303);
  the flag records whether the 100-word hex dump was printed (`!is_quiet`). -/
  | abortCorrupt (dumped : Bool) : ModStep
  /-- segment emitted, carrying the (possibly refilled) partial-event buffer. -/
  | good (seg : List Word) (newCarry : List Word) : ModStep
deriving Repr, DecidableEq

/-- One module of the drain loop of `Poll::ReadFIFO` (lines 1176-1309).
`ws` are the words delivered by `pif->ReadFIFOWords` (`ok` its success flag),
`W` is `nWords[mod]` as sampled by the wait loop, `carry` is
`partialEvent[mod]`, and `q` is `is_quiet`.  The emitted segment is
`[n + 2, mod, …data…]`; a last event promising more words than remain moves
its present words back into the carry buffer and shortens the segment. -/
def processMod (cfg : DrainCfg) (q ok : Bool) (ws : List Word) (W : Nat)
    (carry : List Word) (m : Nat) : ModStep :=
  if W < cfg.minFifoRead then .empty
  else if cfg.extFifoLen ≤ W then .abortFull
  else if ¬ ok then .abortRead
  else
    let data := carry ++ ws
    let n := W + carry.length
    let pr := parseLoop cfg m data n 0 0
    if n < pr.1 then
      let pSize := pr.2 - (pr.1 - n)
      .good ((n - pSize + 2) :: m :: data.take (n - pSize)) (data.drop (n - pSize))
    else if pr.1 < n then .abortCorrupt (!q)
    else .good ((n + 2) :: m :: data) []

/-- Words delivered by `pif->ReadFIFOWords(buf, W, m, …)`: the oracle
`fifoSrc m i` is the `i`-th word the hardware hands over for module `m`. -/
def wsOf (fifoSrc : Nat → Nat → Word) (m W : Nat) : List Word :=
  (List.range W).map (fifoSrc m)

/-- The outcome of the drain loop at one module, as a function of the
pre-drain partial-event buffers. -/
def stepOf (cfg : DrainCfg) (q : Bool) (readOk : Nat → Bool) (fifoSrc : Nat → Nat → Word)
    (W : Nat → Nat) (parts : Nat → List Word) (m : Nat) : ModStep :=
  processMod cfg q (readOk m) (wsOf fifoSrc m (W m)) (W m) (parts m) m

/-- The drain loop over the modules (`for (mod = 0; mod < n_cards; …)`,
ReadFIFO lines 1176-1309), threading the per-module partial-event buffers.
On success it returns the per-module segments in module order together with
the updated buffers; on an abort it returns the dump flag and the buffers as
they stood at the abort (`partialEvent[mod]` is cleared before the parse, so
a corrupt abort leaves module `m`'s buffer empty). -/
def drainMods (cfg : DrainCfg) (q : Bool) (readOk : Nat → Bool) (fifoSrc : Nat → Nat → Word)
    (W : Nat → Nat) :
    (Nat → List Word) → List Nat →
      Except (Bool × (Nat → List Word)) (List (List Word) × (Nat → List Word))
  | parts, [] => .ok ([], parts)
  | parts, m :: rest =>
    match stepOf cfg q readOk fifoSrc W parts m with
    | .empty =>
      match drainMods cfg q readOk fifoSrc W parts rest with
      | .ok (segs, pts) => .ok ([2, m] :: segs, pts)
      | .error e => .error e
    | .abortFull => .error (false, parts)
    | .abortRead => .error (false, parts)
    | .abortCorrupt d => .error (d, Function.update parts m [])
    | .good seg newC =>
      match drainMods cfg q readOk fifoSrc W (Function.update parts m newC) rest with
      | .ok (segs, pts) => .ok (seg :: segs, pts)
      | .error e => .error e

/-- Maximum FIFO depth over modules `0..n-1` (`std::max_element`, line 1163). -/
def maxDepth (d : Nat → Nat) : Nat → Nat
  | 0 => 0
  | n + 1 => max (maxDepth d n) (d n)

/-- Number of iterations executed by a bounded polling loop that breaks as
soon as `hit` holds: `for (t = first; t < first + r; t++) { if (hit t) break; }`. -/
def waitCount (hit : Nat → Bool) : Nat → Nat → Nat
  | _, 0 => 0
  | t, r + 1 => if hit t then 1 else 1 + waitCount hit (t + 1) r

/-- Iterations executed by the threshold-wait loop of `Poll::ReadFIFO`
(lines 1157-1165): up to `POLL_TRIES` cycles, breaking only when the maximum
sampled depth exceeds `threshWords`.  `depthAt t m` is what
`pif->CheckFIFOWords(m)` returns on cycle `t`. -/
def waitIters (cfg : DrainCfg) (depthAt : Nat → Nat → Nat) : Nat :=
  waitCount (fun t => decide (cfg.threshWords < maxDepth (depthAt t) cfg.nCards)) 0 POLL_TRIES

/-- The depth snapshot `nWords` left behind by the threshold-wait loop: the
depths sampled on the last executed cycle. -/
def waitW (cfg : DrainCfg) (depthAt : Nat → Nat → Nat) : Nat → Nat :=
  depthAt (waitIters cfg depthAt - 1)

/-- Output-file identity and size (the state of the `output_file` sink). -/
structure FileState where
  isOpen : Bool
  filesize : Nat
  runNumber : Nat
  suffix : Nat
deriving Repr, DecidableEq

/-- The Poll fields that govern recording: the sink state, `next_run_num`,
and the flags `file_open` / `record_data`. -/
structure FileCtl where
  file : FileState
  next_run_num : Nat
  file_open : Bool
  record_data : Bool
deriving Repr, DecidableEq

/-- Environment of the file layer: whether `OpenNewFile` succeeds, and the
filesystem probing done by `GetNextFileName` (advance a run number past
existing files). -/
structure FileOracle where
  openOk : Bool
  probe : Nat → Nat

/-- The shared control-flag state of `Poll` (constructor lines 83-104)
together with the per-module partial-event buffers of `ReadFIFO`
(`partialEvent`, line 1154) and the file-control fields. -/
structure PollState where
  kill_all : Bool := false
  start_acq : Bool := false
  stop_acq : Bool := false
  do_reboot : Bool := false
  force_spill : Bool := false
  acq_running : Bool := false
  run_ctrl_exit : Bool := false
  had_error : Bool := false
  do_MCA_run : Bool := false
  is_quiet : Bool := false
  debug_mode : Bool := false
  shm_mode : Bool := false
  fc : FileCtl := ⟨⟨false, 0, 1, 0⟩, 1, false, false⟩
  partials : Nat → List Word := fun _ => []

/-- Hardware inputs consumed by one `Poll::ReadFIFO` call. -/
structure DrainOracle where
  depthAt : Nat → Nat → Nat
  readOk : Nat → Bool
  fifoSrc : Nat → Nat → Word

/-- Result of one `Poll::ReadFIFO` call: the return value, the updated
state, the number of wait-loop cycles executed, whether the
read/write/broadcast phase was entered, the per-module segments of the
emitted spill (`none` when no spill was emitted), whether the spill was
recorded to disk, and whether the corrupt-data hex dump was printed. -/
structure DrainResult where
  ret : Bool
  st : PollState
  waitIters : Nat
  didRead : Bool
  segs : Option (List (List Word))
  wrote : Bool
  dumped : Bool

/-- The function `Poll::ReadFIFO` (lines 1144-1325).  Returns immediately when the
acquisition is not running; otherwise runs the threshold wait, decides
`readData = (*maxWords > threshWords || stop_acq)`, and if reading (or
`force_spill`) drains every module, then writes (when `record_data`) and
broadcasts the spill.  Any module abort sets `had_error` and `stop_acq`
and returns `false` before the write/broadcast step.  (The write itself is
modelled separately by `write_data`.) -/
def readFIFO (cfg : DrainCfg) (o : DrainOracle) (st : PollState) : DrainResult :=
  if st.acq_running = false then
    { ret := false, st := st, waitIters := 0, didRead := false,
      segs := none, wrote := false, dumped := false }
  else
    let iters := waitIters cfg o.depthAt
    let W := waitW cfg o.depthAt
    let readData := decide (cfg.threshWords < maxDepth W cfg.nCards) || st.stop_acq
    if readData || st.force_spill then
      let st1 := { st with force_spill := false }
      match drainMods cfg st.is_quiet o.readOk o.fifoSrc W st.partials (List.range cfg.nCards) with
      | .error (d, pts) =>
        { ret := false,
          st := { st1 with had_error := true, stop_acq := true, partials := pts },
          waitIters := iters, didRead := true, segs := none, wrote := false, dumped := d }
      | .ok (segs, pts) =>
        { ret := true, st := { st1 with partials := pts },
          waitIters := iters, didRead := true, segs := some segs,
          wrote := st.fc.record_data, dumped := false }
    else
      { ret := true, st := st, waitIters := iters, didRead := false,
        segs := none, wrote := false, dumped := false }

/-! ### Broadcaster (`Poll::broadcast_data`, lines 260-296, shared-memory branch) -/

/-- One network datagram of a shared-memory spill broadcast: the 1-based
chunk index, the total chunk count, the spill words carried in the payload
(after the 8-byte header), and the byte count passed to `SendMessage`. -/
structure Chunk where
  idx : Nat
  total : Nat
  payload : List Word
  sentBytes : Nat
deriving Repr, DecidableEq

/-- The chunking loop of `Poll::broadcast_data` (lines 272-288): while words
remain, a full chunk carries 10000 words and is sent as 40008 bytes; the
remainder chunk carries the rest and is sent as `(remaining + 2) * 4` bytes. -/
def bcastLoop (total : Nat) (idx : Nat) (rem : List Word) : List Chunk :=
  if h0 : rem.length = 0 then []
  else if hgt : 10000 < rem.length then
    ⟨idx, total, rem.take 10000, 40008⟩ :: bcastLoop total (idx + 1) (rem.drop 10000)
  else [⟨idx, total, rem, (rem.length + 2) * 4⟩]
termination_by rem.length
decreasing_by
  simp_wf
  omega

/-- Chunk count `num_net_chunks = nWords / 10000`, plus one when there is a remainder
(broadcast_data lines 264-266). -/
def numNetChunks (n : Nat) : Nat := n / 10000 + (if n % 10000 = 0 then 0 else 1)

/-- The shared-memory branch of `Poll::broadcast_data`: split the spill into
datagrams numbered from 1. -/
def broadcast_data (ws : List Word) : List Chunk :=
  bcastLoop (numNetChunks ws.length) 1 ws

/-! ### File layer (`Poll::write_data`, `open_output_file`, `close_output_file`) -/

/-- Modelled from the spec: `BufferFile::OpenNewFile` lives in the HRIBF
buffer library, which is not under `src/`.  Per the spec (§4.2, §3 "Run
identity"), a continuation open keeps the current `run_number` and
increments the `suffix`, while a fresh open uses the next run number
(advanced past existing files, here by the oracle `probe`) with suffix 0;
the open can fail, which the oracle `openOk` reports. -/
def openNewFile (o : FileOracle) (continueRun : Bool) (nextRunNum : Nat)
    (f : FileState) : Option FileState :=
  if o.openOk then
    some (if continueRun then
            { isOpen := true, filesize := 0, runNumber := f.runNumber, suffix := f.suffix + 1 }
          else
            { isOpen := true, filesize := 0, runNumber := o.probe nextRunNum, suffix := 0 })
  else none

/-- The function `Poll::close_output_file` (lines 185-202): clear `file_open`, close the
sink if open, and for a non-continuation close advance `next_run_num` via
`GetNextFileName` (the filesystem probing is the oracle `probe`).  The
stats clearing and the close trailer written by `CloseFile` are not
modelled. -/
def close_output_file (o : FileOracle) (continueRun : Bool) (s : FileCtl) : FileCtl :=
  let s1 := { s with file_open := false }
  if s1.file.isOpen then
    let s2 := { s1 with file := { s1.file with isOpen := false } }
    if continueRun then s2
    else { s2 with next_run_num := o.probe s2.next_run_num }
  else s1

/-- The function `Poll::open_output_file` (lines 212-234): when no file is open, try to
open one; on failure clear `record_data` and return false.  When a file is
already open, warn and return false. -/
def open_output_file (o : FileOracle) (continueRun : Bool) (s : FileCtl) : Bool × FileCtl :=
  if s.file.isOpen = false then
    match openNewFile o continueRun s.next_run_num s.file with
    | none => (false, { s with record_data := false })
    | some f => (true, { s with file := f, file_open := true })
  else (false, s)

/-- A completed `output_file.Write`: which file (run number and suffix)
received how many spill words. -/
structure WriteEntry where
  runNumber : Nat
  suffix : Nat
  words : Nat
deriving Repr, DecidableEq

/-- The function `Poll::write_data` (lines 298-319): open a file if none is open; if
`filesize + 4*nWords + 65552` would exceed `MAX_FILE_SIZE`, close the
current file and open a new one as a continuation (`close_output_file(true);
open_output_file(true)`) before writing; then write the whole spill to the
current file.  Modelled from the spec where the sink is concerned: `Write`
appends the spill words (4 bytes each; the buffer-format framing overhead is
not modelled) and writes nothing when no file is open. -/
def write_data (o : FileOracle) (nWords : Nat) (s : FileCtl) : FileCtl × List WriteEntry :=
  let s1 := if s.file.isOpen = false then (open_output_file o false s).2 else s
  let s2 :=
    if MAX_FILE_SIZE < s1.file.filesize + (4 * nWords + 65552) then
      (open_output_file o true (close_output_file o true s1)).2
    else s1
  if s2.file.isOpen then
    ({ s2 with file := { s2.file with filesize := s2.file.filesize + 4 * nWords } },
      [⟨s2.file.runNumber, s2.file.suffix, nWords⟩])
  else (s2, [])

/-! ### Command-side run control (`Poll::StartRun` and friends, lines 422-503) -/

/-- The function `Poll::StartAcq` (lines 473-487): refuse during an MCA run or a running
acquisition, otherwise raise `start_acq`. -/
def StartAcq (st : PollState) : Bool × PollState :=
  if st.do_MCA_run then (false, st)
  else if st.acq_running then (false, st)
  else (true, { st with start_acq := true })

/-- The function `Poll::StopAcq` (lines 493-503): refuse unless running, otherwise raise
`stop_acq`. -/
def StopAcq (st : PollState) : Bool × PollState :=
  if st.acq_running = false then (false, st)
  else (true, { st with stop_acq := true })

/-- The function `Poll::StartRun` (lines 422-443): refuse during MCA or a running
acquisition; close any open file; open the output file — on failure return
false (without starting anything); set `record_data` and raise `start_acq`
via `StartAcq`. -/
def StartRun (o : FileOracle) (st : PollState) : Bool × PollState :=
  if st.do_MCA_run then (false, st)
  else if st.acq_running then (false, st)
  else
    let st1 := if st.fc.file.isOpen then { st with fc := close_output_file o false st.fc }
               else st
    let op := open_output_file o false st1.fc
    if op.1 = false then (false, { st1 with fc := op.2 })
    else
      let st2 := { st1 with fc := { op.2 with record_data := true } }
      (true, (StartAcq st2).2)

/-- The function `Poll::StopRun` (lines 450-467): refuse unless running; raise `stop_acq`
via `StopAcq`, then clear `record_data`. -/
def StopRun (st : PollState) : Bool × PollState :=
  if st.acq_running = false then (false, st)
  else
    let st1 := (StopAcq st).2
    (true, { st1 with fc := { st1.fc with record_data := false } })

/-! ### Command dispatcher (`Poll::command_control`, lines 511-985)

The dispatch below embeds the control-flag effect of every command branch.
Branches that only print (`help`, `version`, `status`, parameter reads,
`csr_test`, `bit_test`, …) or that only edit configuration strings and
numbers outside the modelled state (`fdir`, `prefix`, `title`, `facility`,
`runnum`, `oform`, `stats`, `dump`, parameter writes) are identities on
`PollState`; the MCA argument parsing (`mca_args`) is likewise elided. -/

/-- Effect of one dispatched command verb on the control flags. -/
def dispatch (o : FileOracle) (cmd : String) (st : PollState) : PollState :=
  if cmd = "quit" ∨ cmd = "exit" then
    if st.do_MCA_run then st
    else if st.acq_running then st
    else { st with kill_all := true }
  else if cmd = "kill" then
    let st1 := if st.acq_running || st.do_MCA_run then { st with stop_acq := true } else st
    { st1 with kill_all := true }
  else if cmd = "run" then (StartRun o st).2
  else if cmd = "startacq" ∨ cmd = "startvme" then (StartAcq st).2
  else if cmd = "stop" then (StopRun st).2
  else if cmd = "stopacq" ∨ cmd = "stopvme" then (StopAcq st).2
  else if cmd = "acq" ∨ cmd = "shm" then { st with shm_mode := !st.shm_mode }
  else if cmd = "reboot" then
    if st.do_MCA_run then st
    else if st.acq_running || st.do_MCA_run then st
    else { st with do_reboot := true }
  else if cmd = "clo" ∨ cmd = "close" then
    if st.do_MCA_run then st
    else if st.acq_running && st.fc.record_data then st
    else { st with fc := close_output_file o false st.fc }
  else if cmd = "hup" ∨ cmd = "spill" then
    if st.do_MCA_run then st
    else if st.acq_running = false then st
    else { st with force_spill := true }
  else if cmd = "debug" then { st with debug_mode := !st.debug_mode }
  else if cmd = "quiet" then { st with is_quiet := !st.is_quiet }
  else if cmd = "mca" ∨ cmd = "MCA" then
    if st.do_MCA_run then st
    else if st.acq_running then st
    else { st with do_MCA_run := true }
  else st

/-- One iteration of the command loop of `Poll::command_control`
(lines 516-983): map `CTRL_D` to `quit`, ignore `CTRL_C`, lines containing a
tab (tab completion) and empty lines; otherwise clear `had_error`
unconditionally (line 541) and dispatch the leading verb. -/
def processLine (o : FileOracle) (line : String) (st : PollState) : PollState :=
  let cmd := if line = "CTRL_D" then "quit" else line
  if cmd = "CTRL_C" then st
  else if (Char.ofNat 9) ∈ cmd.data then st
  else if cmd = "" then st
  else dispatch o ((cmd.splitOn (" ")).headD cmd) { st with had_error := false }

/-! ### Run-control tick (`Poll::run_control`, lines 992-1142)

One iteration of the `while(true)` loop, with the hardware responses
supplied by an oracle.  The status-line construction (lines 1110-1134) and
the idle sleep are not modelled; a `break` from the loop is reported as an
`exited` result, after which `run_ctrl_exit` is set (line 1140). -/

/-- Externally visible work performed during a tick. -/
inductive Action where
  | boot : Action
  | mcaRun : Action
  | startListMode : Action
  | endRun : Action
  | readFifo : Action
deriving Repr, DecidableEq

/-- Hardware responses consumed by one run-control tick. -/
structure TickOracle where
  drain : DrainOracle
  drainFlush : Nat → DrainOracle
  bootOk : Bool
  startOk : Bool
  mcaOpenOk : Bool
  runStatus1 : Nat → Nat
  runStatus2 : Nat → Nat

/-- Result of one run-control tick. -/
structure TickResult where
  exited : Bool
  st : PollState
  actions : List Action

/-- The `do_reboot` step (lines 999-1008): while running it only forces
`stop_acq`; otherwise it boots the crate and clears the flag. -/
def tickReboot (o : TickOracle) (st : PollState) : PollState × List Action :=
  if st.do_reboot then
    if st.acq_running then ({ st with stop_acq := true }, [])
    else ({ st with do_reboot := false }, [Action.boot])
  else (st, [])

/-- The `do_MCA_run` step (lines 1010-1035): while running it only forces
`stop_acq`; otherwise it runs the MCA session (when the backend opened),
then clears `stop_acq` and `do_MCA_run` (the zeroing of `mca_args` is
elided). -/
def tickMCA (o : TickOracle) (st : PollState) : PollState × List Action :=
  if st.do_MCA_run then
    if st.acq_running then ({ st with stop_acq := true }, [])
    else
      ({ st with stop_acq := false, do_MCA_run := false },
        if o.mcaOpenOk then [Action.mcaRun] else [])
  else (st, [])

/-- The `start_acq` step (lines 1038-1061): start list mode; on success mark
the acquisition running, on failure set `had_error`; either way clear
`start_acq`.  A redundant `start_acq` while already running is just
cleared. -/
def tickStart (o : TickOracle) (st : PollState) : PollState × List Action :=
  if st.start_acq && !st.acq_running then
    if o.startOk then
      ({ st with acq_running := true, start_acq := false }, [Action.startListMode])
    else
      ({ st with acq_running := false, had_error := true, start_acq := false },
        [Action.startListMode])
  else if st.start_acq && st.acq_running then ({ st with start_acq := false }, [])
  else (st, [])

/-- Per-module run-end handling inside the stop branch (lines 1078-1102):
a module still in run status 1 gets `force_spill` and a flush `ReadFIFO`;
a non-zero final run status sets `had_error`. -/
def stopModule (cfg : DrainCfg) (o : TickOracle) (m : Nat) (st : PollState) :
    PollState × List Action :=
  let r :=
    if o.runStatus1 m = 1 then
      ((readFIFO cfg (o.drainFlush m) { st with force_spill := true }).st, [Action.readFifo])
    else (st, ([] : List Action))
  if o.runStatus2 m ≠ 0 then ({ r.1 with had_error := true }, r.2) else r

/-- The loop over modules of the stop branch (lines 1078-1102). -/
def stopModules (cfg : DrainCfg) (o : TickOracle) : List Nat → PollState → PollState × List Action
  | [], st => (st, [])
  | m :: rest, st =>
    let r1 := stopModule cfg o m st
    let r2 := stopModules cfg o rest r1.1
    (r2.1, r1.2 ++ r2.2)

/-- The acquisition step (lines 1063-1108): when running, call `ReadFIFO`;
if `stop_acq` is then set, end the run (`pif->EndRun()`), clear `stop_acq`
and `acq_running`, and run the per-module run-end handling. -/
def tickAcq (cfg : DrainCfg) (o : TickOracle) (st : PollState) : PollState × List Action :=
  if st.acq_running then
    let r := readFIFO cfg o.drain st
    if r.st.stop_acq then
      let st1 := { r.st with stop_acq := false, acq_running := false }
      let r2 := stopModules cfg o (List.range cfg.nCards) st1
      (r2.1, Action.readFifo :: Action.endRun :: r2.2)
    else (r.st, [Action.readFifo])
  else (st, [])

/-- The body of one tick after the `kill_all` check: the reboot, MCA,
acquisition-start and acquisition steps in program order. -/
def tickBody (cfg : DrainCfg) (o : TickOracle) (st : PollState) : TickResult :=
  let r1 := tickReboot o st
  let r2 := tickMCA o r1.1
  let r3 := tickStart o r2.1
  let r4 := tickAcq cfg o r3.1
  { exited := false, st := r4.1, actions := r1.2 ++ r2.2 ++ r3.2 ++ r4.2 }

/-- One run-control tick (lines 993-1138).  `kill_all` is examined first
(lines 994-997): while running it forces `stop_acq` and the tick proceeds;
otherwise the loop breaks immediately — `run_ctrl_exit` is set (line 1140)
and nothing else of the tick runs. -/
def tick (cfg : DrainCfg) (o : TickOracle) (st : PollState) : TickResult :=
  if st.kill_all then
    if st.acq_running then tickBody cfg o { st with stop_acq := true }
    else { exited := true, st := { st with run_ctrl_exit := true }, actions := [] }
  else tickBody cfg o st

/-! ## Theorems -/

/-- Default chunk used with `List.getD`. -/
def dChunk : Chunk := ⟨0, 0, [], 0⟩

theorem bcastLoop_length : ∀ (k : Nat) (rem : List Word), rem.length ≤ k → ∀ total idx,
    (bcastLoop total idx rem).length = (rem.length + 9999) / 10000 := by
  intro k
  induction k with
  | zero =>
    intro rem h total idx
    have h0 : rem.length = 0 := by omega
    rw [bcastLoop, dif_pos h0, h0]
    decide
  | succ k ih =>
    intro rem h total idx
    rw [bcastLoop]
    by_cases h0 : rem.length = 0
    · rw [dif_pos h0, h0]
      decide
    · rw [dif_neg h0]
      by_cases hgt : 10000 < rem.length
      · rw [dif_pos hgt]
        simp only [List.length_cons]
        rw [ih (rem.drop 10000) (by simp only [List.length_drop]; omega) total (idx + 1)]
        simp only [List.length_drop]
        omega
      · rw [dif_neg hgt]
        simp only [List.length_cons, List.length_nil]
        omega

theorem bcastLoop_join : ∀ (k : Nat) (rem : List Word), rem.length ≤ k → ∀ total idx,
    ((bcastLoop total idx rem).map Chunk.payload).flatten = rem := by
  intro k
  induction k with
  | zero =>
    intro rem h total idx
    have h0 : rem.length = 0 := by omega
    rw [bcastLoop, dif_pos h0]
    simp [List.length_eq_zero.mp h0]
  | succ k ih =>
    intro rem h total idx
    rw [bcastLoop]
    by_cases h0 : rem.length = 0
    · rw [dif_pos h0]
      simp [List.length_eq_zero.mp h0]
    · rw [dif_neg h0]
      by_cases hgt : 10000 < rem.length
      · rw [dif_pos hgt]
        simp only [List.map_cons, List.flatten_cons]
        rw [ih (rem.drop 10000) (by simp only [List.length_drop]; omega) total (idx + 1)]
        exact List.take_append_drop 10000 rem
      · rw [dif_neg hgt]
        simp

theorem bcastLoop_get : ∀ (k : Nat) (rem : List Word), rem.length ≤ k → ∀ total idx i,
    i < (bcastLoop total idx rem).length →
    ((bcastLoop total idx rem).getD i dChunk).idx = idx + i ∧
    ((bcastLoop total idx rem).getD i dChunk).total = total ∧
    (i + 1 < (bcastLoop total idx rem).length →
      ((bcastLoop total idx rem).getD i dChunk).payload.length = 10000 ∧
      ((bcastLoop total idx rem).getD i dChunk).sentBytes = 40008) ∧
    (i + 1 = (bcastLoop total idx rem).length →
      ((bcastLoop total idx rem).getD i dChunk).sentBytes =
        (((bcastLoop total idx rem).getD i dChunk).payload.length + 2) * 4) := by
  intro k
  induction k with
  | zero =>
    intro rem h total idx i hi
    have h0 : rem.length = 0 := by omega
    rw [bcastLoop, dif_pos h0] at hi
    simp at hi
  | succ k ih =>
    intro rem h total idx i hi
    rw [bcastLoop] at hi ⊢
    by_cases h0 : rem.length = 0
    · rw [dif_pos h0] at hi
      simp at hi
    · rw [dif_neg h0] at hi ⊢
      by_cases hgt : 10000 < rem.length
      · rw [dif_pos hgt] at hi ⊢
        simp only [List.length_cons] at hi ⊢
        cases i with
        | zero =>
          refine ⟨by simp, by simp, ?_, ?_⟩
          · intro _
            constructor
            · simp only [List.getD_cons_zero, List.length_take]
              omega
            · simp
          · intro hlen
            exfalso
            have := bcastLoop_length k (rem.drop 10000) (by simp only [List.length_drop]; omega)
              total (idx + 1)
            simp only [List.length_drop] at this
            omega
        | succ j =>
          simp only [List.getD_cons_succ]
          have hj : j < (bcastLoop total (idx + 1) (rem.drop 10000)).length := by omega
          obtain ⟨ha, hb, hc, hd⟩ :=
            ih (rem.drop 10000) (by simp only [List.length_drop]; omega) total (idx + 1) j hj
          refine ⟨by omega, hb, ?_, ?_⟩
          · intro hlt
            exact hc (by omega)
          · intro heq
            exact hd (by omega)
      · rw [dif_neg hgt] at hi ⊢
        simp only [List.length_cons, List.length_nil] at hi
        have hi0 : i = 0 := by omega
        subst hi0
        refine ⟨by simp, by simp, ?_, ?_⟩
        · intro hlt
          simp only [List.length_cons, List.length_nil] at hlt
          omega
        · intro _
          simp

/-- Claim C7: in shared-memory mode a spill of `n` words is sent as exactly
`⌈n / 10000⌉` datagrams numbered from 1; every non-final datagram carries
10000 payload words and is sent as 40008 bytes, the final datagram's
transport length is `(remaining_words + 2) * 4` bytes, and concatenating the
payloads in chunk order reproduces the spill. -/
theorem c7_broadcast_chunking (ws : List Word) :
    (broadcast_data ws).length = (ws.length + 9999) / 10000 ∧
    ((broadcast_data ws).map Chunk.payload).flatten = ws ∧
    ∀ i, i < (broadcast_data ws).length →
      ((broadcast_data ws).getD i dChunk).idx = i + 1 ∧
      ((broadcast_data ws).getD i dChunk).total = (ws.length + 9999) / 10000 ∧
      (i + 1 < (broadcast_data ws).length →
        ((broadcast_data ws).getD i dChunk).payload.length = 10000 ∧
        ((broadcast_data ws).getD i dChunk).sentBytes = 40008) ∧
      (i + 1 = (broadcast_data ws).length →
        ((broadcast_data ws).getD i dChunk).sentBytes =
          (((broadcast_data ws).getD i dChunk).payload.length + 2) * 4) := by
  have htot : numNetChunks ws.length = (ws.length + 9999) / 10000 := by
    unfold numNetChunks
    by_cases h : ws.length % 10000 = 0 <;> simp [h] <;> omega
  refine ⟨?_, ?_, ?_⟩
  · unfold broadcast_data
    rw [bcastLoop_length ws.length ws le_rfl]
  · unfold broadcast_data
    exact bcastLoop_join ws.length ws le_rfl _ 1
  · intro i hi
    unfold broadcast_data at hi ⊢
    obtain ⟨ha, hb, hc, hd⟩ := bcastLoop_get ws.length ws le_rfl (numNetChunks ws.length) 1 i hi
    exact ⟨by omega, by rw [hb, htot], hc, hd⟩

/-- Witness for C7: a one-word spill is sent as a single chunk, numbered 1,
whose transport length is `(1 + 2) * 4 = 12` bytes and whose payload is the
spill. -/
theorem c7_witness :
    (0 < (broadcast_data [5]).length) ∧
    ((broadcast_data [5]).getD 0 dChunk).idx = 0 + 1 ∧
    ((broadcast_data [5]).getD 0 dChunk).total = (1 + 9999) / 10000 ∧
    (0 + 1 = (broadcast_data [5]).length →
      ((broadcast_data [5]).getD 0 dChunk).sentBytes =
        (((broadcast_data [5]).getD 0 dChunk).payload.length + 2) * 4) := by
  have h := c7_broadcast_chunking [5]
  have hlen : (broadcast_data [5]).length = 1 := by
    rw [h.1]
    decide
  refine ⟨by omega, ?_, ?_, ?_⟩
  · exact ((h.2.2 0 (by omega)).1)
  · exact ((h.2.2 0 (by omega)).2.1)
  · exact ((h.2.2 0 (by omega)).2.2.2)

theorem waitCount_nohit (hit : Nat → Bool) :
    ∀ (r t : Nat), (∀ j, j < r → hit (t + j) = false) → waitCount hit t r = r := by
  intro r
  induction r with
  | zero => intro t _; rfl
  | succ r ih =>
    intro t h
    have h0 : hit t = false := by simpa using h 0 (by omega)
    unfold waitCount
    rw [h0]
    simp only [Bool.false_eq_true, if_false]
    rw [ih (t + 1) (fun j hj => by
      have := h (j + 1) (by omega)
      simpa [Nat.add_assoc, Nat.add_comm 1 j] using this)]
    omega

theorem readFIFO_fields (cfg : DrainCfg) (o : DrainOracle) (st : PollState)
    (hacq : st.acq_running = true) :
    (readFIFO cfg o st).waitIters = waitIters cfg o.depthAt ∧
    (readFIFO cfg o st).didRead =
      ((decide (cfg.threshWords < maxDepth (waitW cfg o.depthAt) cfg.nCards) || st.stop_acq)
        || st.force_spill) := by
  unfold readFIFO
  rw [if_neg (by simp [hacq])]
  by_cases hc :
      ((decide (cfg.threshWords < maxDepth (waitW cfg o.depthAt) cfg.nCards) || st.stop_acq)
        || st.force_spill) = true
  · rw [if_pos hc]
    cases hdm : drainMods cfg st.is_quiet o.readOk o.fifoSrc (waitW cfg o.depthAt) st.partials
        (List.range cfg.nCards) with
    | error e =>
      obtain ⟨d, pts⟩ := e
      exact ⟨rfl, hc.symm⟩
    | ok v =>
      obtain ⟨sg, pts⟩ := v
      exact ⟨rfl, hc.symm⟩
  · rw [if_neg hc]
    simp only [Bool.not_eq_true] at hc
    exact ⟨rfl, hc.symm⟩

set_option maxRecDepth 4000 in
/-- Counterexample to claim C3 as stated: with `stop_acq` set and every
polled depth at 0 (never above the threshold), the threshold-wait loop still
executes all `POLL_TRIES = 100` cycles — `stop_acq` does not break the wait
loop early (the drain then does read data because of `stop_acq`). -/
theorem c3_counterexample :
    (⟨false, false, true, false, false, true, false, false, false, false, false, false,
        ⟨⟨false, 0, 1, 0⟩, 1, false, false⟩, fun _ => []⟩ : PollState).stop_acq = true ∧
    (readFIFO ⟨1, 0, 100, 1, fun _ => 0⟩ ⟨fun _ _ => 0, fun _ => true, fun _ _ => 0⟩
        ⟨false, false, true, false, false, true, false, false, false, false, false, false,
          ⟨⟨false, 0, 1, 0⟩, 1, false, false⟩, fun _ => []⟩).waitIters = POLL_TRIES ∧
    (readFIFO ⟨1, 0, 100, 1, fun _ => 0⟩ ⟨fun _ _ => 0, fun _ => true, fun _ _ => 0⟩
        ⟨false, false, true, false, false, true, false, false, false, false, false, false,
          ⟨⟨false, 0, 1, 0⟩, 1, false, false⟩, fun _ => []⟩).didRead = true := by
  refine ⟨rfl, ?_, ?_⟩ <;> decide

/-- Claim C3 (amended): the threshold-wait loop of a drain pass breaks early
only when the maximum per-module FIFO depth exceeds `threshWords`; when no
polling cycle exceeds the threshold the loop runs all `POLL_TRIES = 100`
cycles even if `stop_acq` is set, and `stop_acq` is instead consulted after
the wait — it (or `force_spill`) then makes the drain read data. -/
theorem c3_wait_loop_amended (cfg : DrainCfg) (o : DrainOracle) (st : PollState)
    (hacq : st.acq_running = true)
    (hnohit : ∀ t, t < POLL_TRIES → ¬ cfg.threshWords < maxDepth (o.depthAt t) cfg.nCards) :
    (readFIFO cfg o st).waitIters = POLL_TRIES ∧
    (readFIFO cfg o st).didRead = (st.stop_acq || st.force_spill) := by
  have hiters : waitIters cfg o.depthAt = POLL_TRIES := by
    unfold waitIters
    exact waitCount_nohit _ POLL_TRIES 0 (fun j hj => by
      simp only [decide_eq_false_iff_not, Nat.zero_add]
      exact hnohit j hj)
  have hsnap : ¬ cfg.threshWords < maxDepth (waitW cfg o.depthAt) cfg.nCards := by
    unfold waitW
    rw [hiters]
    exact hnohit (POLL_TRIES - 1) (by decide)
  obtain ⟨h1, h2⟩ := readFIFO_fields cfg o st hacq
  refine ⟨by rw [h1, hiters], ?_⟩
  rw [h2, decide_eq_false hsnap]
  simp

/-- Witness for the amended C3: a concrete drain pass with `stop_acq` set
and constant zero depths runs the full 100 wait cycles and then reads. -/
theorem c3_wait_loop_amended_witness :
    (⟨false, false, true, false, false, true, false, false, false, false, false, false,
        ⟨⟨false, 0, 1, 0⟩, 1, false, false⟩, fun _ => []⟩ : PollState).acq_running = true ∧
    (readFIFO ⟨1, 3, 100, 1, fun _ => 0⟩ ⟨fun _ _ => 2, fun _ => true, fun _ _ => 0⟩
        ⟨false, false, true, false, false, true, false, false, false, false, false, false,
          ⟨⟨false, 0, 1, 0⟩, 1, false, false⟩, fun _ => []⟩).waitIters = POLL_TRIES ∧
    (readFIFO ⟨1, 3, 100, 1, fun _ => 0⟩ ⟨fun _ _ => 2, fun _ => true, fun _ _ => 0⟩
        ⟨false, false, true, false, false, true, false, false, false, false, false, false,
          ⟨⟨false, 0, 1, 0⟩, 1, false, false⟩, fun _ => []⟩).didRead = (true || false) := by
  refine ⟨rfl, ?_⟩
  exact c3_wait_loop_amended _ _ _ rfl (fun t _ => by
    show ¬ (3 < maxDepth (fun _ => 2) 1)
    decide)

/-! ### Parse and drain lemmas -/

/-- A header violating the invariants of §3: wrong slot, channel above 15,
or zero event size. -/
def headerBad (cfg : DrainCfg) (m : Nat) (w : Word) : Prop :=
  slotRead w ≠ cfg.slotOf m ∨ 15 < chanRead w ∨ eventSize w = 0

instance headerBadDecidable (cfg : DrainCfg) (m : Nat) (w : Word) :
    Decidable (headerBad cfg m w) := by
  unfold headerBad
  exact inferInstance

/-- Module outcomes that let the drain proceed to the next module. -/
def goodOrEmpty : ModStep → Bool
  | .empty => true
  | .good _ _ => true
  | _ => false

/-- The segment a non-aborting module contributes to the spill. -/
def segOfStep (m : Nat) : ModStep → List Word
  | .empty => [2, m]
  | .good s _ => s
  | _ => []

theorem parseLoop_bad_stop (cfg : DrainCfg) (m : Nat) (data : List Word) (n p es : Nat)
    (hp : p < n) (hbad : headerBad cfg m (wordAt data p)) :
    parseLoop cfg m data n p es = (p, eventSize (wordAt data p)) := by
  rw [parseLoop_eq, if_pos hp]
  by_cases h1 : slotRead (wordAt data p) ≠ cfg.slotOf m
  · rw [if_pos h1]
  · rw [if_neg h1]
    by_cases h2 : 15 < chanRead (wordAt data p)
    · rw [if_pos h2]
    · rw [if_neg h2]
      have h3 : eventSize (wordAt data p) = 0 := by
        rcases hbad with h | h | h
        · exact absurd h h1
        · exact absurd h h2
        · exact h
      rw [if_pos h3]

theorem parseLoop_es_le (cfg : DrainCfg) (m : Nat) (data : List Word) (n : Nat) :
    ∀ (k p es : Nat), n - p ≤ k → es ≤ p →
      n < (parseLoop cfg m data n p es).1 →
      (parseLoop cfg m data n p es).2 ≤ (parseLoop cfg m data n p es).1 := by
  intro k
  induction k with
  | zero =>
    intro p es hk hes hgt
    rw [parseLoop_eq] at hgt ⊢
    have hp : ¬ p < n := by omega
    rw [if_neg hp] at hgt ⊢
    omega
  | succ k ih =>
    intro p es hk hes hgt
    rw [parseLoop_eq] at hgt ⊢
    by_cases hp : p < n
    · rw [if_pos hp] at hgt ⊢
      by_cases h1 : slotRead (wordAt data p) ≠ cfg.slotOf m
      · rw [if_pos h1] at hgt ⊢
        simp at hgt
        omega
      · rw [if_neg h1] at hgt ⊢
        by_cases h2 : 15 < chanRead (wordAt data p)
        · rw [if_pos h2] at hgt ⊢
          simp at hgt
          omega
        · rw [if_neg h2] at hgt ⊢
          by_cases h3 : eventSize (wordAt data p) = 0
          · rw [if_pos h3] at hgt ⊢
            simp at hgt
            omega
          · rw [if_neg h3] at hgt ⊢
            exact ih (p + eventSize (wordAt data p)) (eventSize (wordAt data p))
              (by omega) (by omega) hgt
    · rw [if_neg hp] at hgt ⊢
      omega

theorem processMod_good_shape (cfg : DrainCfg) (q ok : Bool) (ws : List Word) (W : Nat)
    (carry : List Word) (m : Nat) (seg newC : List Word)
    (hws : ws.length = W)
    (h : processMod cfg q ok ws W carry m = .good seg newC) :
    seg.headD 0 = seg.length ∧ 2 ≤ seg.length := by
  have hd : (carry ++ ws).length = W + carry.length := by
    simp [hws]
    omega
  simp only [processMod] at h
  by_cases h1 : W < cfg.minFifoRead
  · rw [if_pos h1] at h
    exact absurd h (by simp)
  rw [if_neg h1] at h
  by_cases h2 : cfg.extFifoLen ≤ W
  · rw [if_pos h2] at h
    exact absurd h (by simp)
  rw [if_neg h2] at h
  by_cases h3 : ok = true
  swap
  · rw [if_pos (by simpa using h3)] at h
    exact absurd h (by simp)
  rw [if_neg (by simp [h3])] at h
  by_cases h4 : W + carry.length < (parseLoop cfg m (carry ++ ws) (W + carry.length) 0 0).1
  · rw [if_pos h4] at h
    injection h with hseg hnc
    subst hseg
    constructor
    · simp only [List.headD_cons, List.length_cons, List.length_take]
      rw [hd, min_eq_left (Nat.sub_le _ _)]
    · simp
  · rw [if_neg h4] at h
    by_cases h5 : (parseLoop cfg m (carry ++ ws) (W + carry.length) 0 0).1 < W + carry.length
    · rw [if_pos h5] at h
      exact absurd h (by simp)
    · rw [if_neg h5] at h
      injection h with hseg hnc
      subst hseg
      constructor
      · simp [hd]
      · simp

theorem processMod_corrupt_of_bad (cfg : DrainCfg) (q ok : Bool) (ws : List Word) (W : Nat)
    (carry : List Word) (m : Nat)
    (hmin : ¬ W < cfg.minFifoRead) (hfull : ¬ cfg.extFifoLen ≤ W) (hok : ok = true)
    (hn : 0 < W + carry.length)
    (hbad : headerBad cfg m (wordAt (carry ++ ws) 0)) :
    processMod cfg q ok ws W carry m = .abortCorrupt (!q) := by
  simp only [processMod]
  rw [if_neg hmin, if_neg hfull, if_neg (by simp [hok])]
  rw [parseLoop_bad_stop cfg m (carry ++ ws) (W + carry.length) 0 0 hn hbad]
  rw [if_neg (by omega), if_pos hn]

theorem stepOf_update_ne (cfg : DrainCfg) (q : Bool) (readOk : Nat → Bool)
    (fifoSrc : Nat → Nat → Word) (W : Nat → Nat) (parts : Nat → List Word)
    (m m' : Nat) (l : List Word) (h : m' ≠ m) :
    stepOf cfg q readOk fifoSrc W (Function.update parts m l) m' =
      stepOf cfg q readOk fifoSrc W parts m' := by
  unfold stepOf
  rw [Function.update_noteq h]

theorem drainMods_ok_inv (cfg : DrainCfg) (q : Bool) (readOk : Nat → Bool)
    (fifoSrc : Nat → Nat → Word) (W : Nat → Nat) :
    ∀ (mods : List Nat) (parts : Nat → List Word) (segs : List (List Word))
      (pts : Nat → List Word), mods.Nodup →
      drainMods cfg q readOk fifoSrc W parts mods = .ok (segs, pts) →
      (∀ m ∈ mods, goodOrEmpty (stepOf cfg q readOk fifoSrc W parts m) = true) ∧
      segs = mods.map (fun m => segOfStep m (stepOf cfg q readOk fifoSrc W parts m)) := by
  intro mods
  induction mods with
  | nil =>
    intro parts segs pts _ h
    simp only [drainMods] at h
    injection h with h'
    injection h' with h1 h2
    subst h1
    simp
  | cons m rest ih =>
    intro parts segs pts hnd h
    have hm : m ∉ rest := (List.nodup_cons.mp hnd).1
    have hnd' : rest.Nodup := (List.nodup_cons.mp hnd).2
    simp only [drainMods] at h
    cases hs : stepOf cfg q readOk fifoSrc W parts m with
    | empty =>
      cases hrec : drainMods cfg q readOk fifoSrc W parts rest with
      | error e =>
        simp only [hs, hrec] at h
        exact absurd h (by simp)
      | ok v =>
        obtain ⟨segs', pts'⟩ := v
        simp only [hs, hrec] at h
        injection h with h'
        injection h' with h1 h2
        obtain ⟨hall, hmap⟩ := ih parts segs' pts' hnd' hrec
        constructor
        · intro m' hm'
          rcases List.mem_cons.mp hm' with rfl | hm'
          · rw [hs]; rfl
          · exact hall m' hm'
        · subst h1
          rw [List.map_cons, hs, hmap]
          rfl
    | abortFull =>
      simp only [hs] at h
      exact absurd h (by simp)
    | abortRead =>
      simp only [hs] at h
      exact absurd h (by simp)
    | abortCorrupt d =>
      simp only [hs] at h
      exact absurd h (by simp)
    | good seg newC =>
      cases hrec : drainMods cfg q readOk fifoSrc W (Function.update parts m newC) rest with
      | error e =>
        simp only [hs, hrec] at h
        exact absurd h (by simp)
      | ok v =>
        obtain ⟨segs', pts'⟩ := v
        simp only [hs, hrec] at h
        injection h with h'
        injection h' with h1 h2
        obtain ⟨hall, hmap⟩ := ih (Function.update parts m newC) segs' pts' hnd' hrec
        constructor
        · intro m' hm'
          rcases List.mem_cons.mp hm' with rfl | hm'
          · rw [hs]; rfl
          · rw [← stepOf_update_ne cfg q readOk fifoSrc W parts m m' newC (by
              intro hcontra; exact hm (hcontra ▸ hm'))]
            exact hall m' hm'
        · subst h1
          rw [List.map_cons, hs, hmap]
          refine congrArg₂ _ rfl ?_
          apply List.map_congr_left
          intro m' hm'
          rw [stepOf_update_ne cfg q readOk fifoSrc W parts m m' newC (by
            intro hcontra; exact hm (hcontra ▸ hm'))]

theorem drainMods_error_cons (cfg : DrainCfg) (q : Bool) (readOk : Nat → Bool)
    (fifoSrc : Nat → Nat → Word) (W : Nat → Nat) (m : Nat) (d : Bool) (l₂ : List Nat) :
    ∀ (l₁ : List Nat) (parts : Nat → List Word), l₁.Nodup → m ∉ l₁ →
      (∀ k ∈ l₁, goodOrEmpty (stepOf cfg q readOk fifoSrc W parts k) = true) →
      stepOf cfg q readOk fifoSrc W parts m = .abortCorrupt d →
      ∃ pts, drainMods cfg q readOk fifoSrc W parts (l₁ ++ m :: l₂) = .error (d, pts) := by
  intro l₁
  induction l₁ with
  | nil =>
    intro parts _ _ _ hcorr
    refine ⟨Function.update parts m [], ?_⟩
    simp only [List.nil_append, drainMods, hcorr]
  | cons k rest ih =>
    intro parts hnd hm hgood hcorr
    have hk : k ∉ rest := (List.nodup_cons.mp hnd).1
    have hnd' : rest.Nodup := (List.nodup_cons.mp hnd).2
    have hmk : m ≠ k := by
      intro hcontra
      exact hm (by simp [hcontra])
    have hgk := hgood k (by simp)
    simp only [List.cons_append, drainMods]
    cases hs : stepOf cfg q readOk fifoSrc W parts k with
    | empty =>
      obtain ⟨pts, hrec⟩ := ih parts hnd' (by simp at hm; exact hm.2)
        (fun k' hk' => hgood k' (by simp [hk'])) hcorr
      exact ⟨pts, by simp only [List.append_eq, hrec]⟩
    | abortFull => rw [hs] at hgk; exact absurd hgk (by simp [goodOrEmpty])
    | abortRead => rw [hs] at hgk; exact absurd hgk (by simp [goodOrEmpty])
    | abortCorrupt d' => rw [hs] at hgk; exact absurd hgk (by simp [goodOrEmpty])
    | good seg newC =>
      have hupd : ∀ k' , k' ≠ k →
          stepOf cfg q readOk fifoSrc W (Function.update parts k newC) k' =
            stepOf cfg q readOk fifoSrc W parts k' := fun k' hk' =>
        stepOf_update_ne cfg q readOk fifoSrc W parts k k' newC hk'
      obtain ⟨pts, hrec⟩ := ih (Function.update parts k newC) hnd' (by simp at hm; exact hm.2)
        (fun k' hk' => by
          rw [hupd k' (fun hcontra => hk (hcontra ▸ hk'))]
          exact hgood k' (by simp [hk']))
        (by rw [hupd m hmk]; exact hcorr)
      exact ⟨pts, by simp only [List.append_eq, hrec]⟩

theorem readFIFO_segs_inv (cfg : DrainCfg) (o : DrainOracle) (st : PollState)
    (segs : List (List Word)) (h : (readFIFO cfg o st).segs = some segs) :
    ∃ pts, drainMods cfg st.is_quiet o.readOk o.fifoSrc (waitW cfg o.depthAt) st.partials
      (List.range cfg.nCards) = .ok (segs, pts) := by
  unfold readFIFO at h
  by_cases hacq : st.acq_running = false
  · rw [if_pos hacq] at h
    exact absurd h (by simp)
  rw [if_neg hacq] at h
  by_cases hc :
      ((decide (cfg.threshWords < maxDepth (waitW cfg o.depthAt) cfg.nCards) || st.stop_acq)
        || st.force_spill) = true
  · rw [if_pos hc] at h
    cases hdm : drainMods cfg st.is_quiet o.readOk o.fifoSrc (waitW cfg o.depthAt) st.partials
        (List.range cfg.nCards) with
    | error e =>
      obtain ⟨d, pts⟩ := e
      rw [hdm] at h
      exact absurd h (by simp)
    | ok v =>
      obtain ⟨sg, pts⟩ := v
      rw [hdm] at h
      simp only [Option.some.injEq] at h
      exact ⟨pts, by rw [h]⟩
  · rw [if_neg hc] at h
    exact absurd h (by simp)

theorem readFIFO_of_drain_error (cfg : DrainCfg) (o : DrainOracle) (st : PollState)
    (d : Bool) (pts : Nat → List Word)
    (hacq : st.acq_running = true)
    (hread : ((decide (cfg.threshWords < maxDepth (waitW cfg o.depthAt) cfg.nCards)
        || st.stop_acq) || st.force_spill) = true)
    (hdm : drainMods cfg st.is_quiet o.readOk o.fifoSrc (waitW cfg o.depthAt) st.partials
      (List.range cfg.nCards) = .error (d, pts)) :
    (readFIFO cfg o st).ret = false ∧ (readFIFO cfg o st).st.had_error = true ∧
    (readFIFO cfg o st).st.stop_acq = true ∧ (readFIFO cfg o st).segs = none ∧
    (readFIFO cfg o st).wrote = false ∧ (readFIFO cfg o st).dumped = d := by
  unfold readFIFO
  rw [if_neg (by simp [hacq]), if_pos hread]
  simp [hdm]

theorem maxDepth_ge (d : Nat → Nat) : ∀ (n m : Nat), m < n → d m ≤ maxDepth d n := by
  intro n
  induction n with
  | zero => intro m hm; omega
  | succ n ih =>
    intro m hm
    by_cases h : m = n
    · subst h
      exact le_max_right _ _
    · exact le_trans (ih m (by omega)) (le_max_left _ _)

/-- Claim C2: for every spill that reaches the write/broadcast step, every
module segment's first word equals the total number of words in the segment
(data words plus the length word and the module-index word, i.e. `n[m] + 2`),
hence is at least 2; there is one segment per module, and a module whose
FIFO depth is below `MIN_FIFO_READ` contributes exactly `[2, m]`. -/
theorem c2_segment_framing (cfg : DrainCfg) (o : DrainOracle) (st : PollState)
    (segs : List (List Word)) (h : (readFIFO cfg o st).segs = some segs) :
    (∀ seg ∈ segs, seg.headD 0 = seg.length ∧ 2 ≤ seg.length) ∧
    segs.length = cfg.nCards ∧
    (∀ k, k < cfg.nCards → waitW cfg o.depthAt k < cfg.minFifoRead →
      segs.getD k [] = [2, k]) := by
  obtain ⟨pts, hdm⟩ := readFIFO_segs_inv cfg o st segs h
  obtain ⟨hall, hmap⟩ := drainMods_ok_inv cfg st.is_quiet o.readOk o.fifoSrc
    (waitW cfg o.depthAt) (List.range cfg.nCards) st.partials segs pts
    (List.nodup_range cfg.nCards) hdm
  refine ⟨?_, ?_, ?_⟩
  · intro seg hseg
    rw [hmap] at hseg
    obtain ⟨m, hmem, hsegeq⟩ := List.mem_map.mp hseg
    cases hstep : stepOf cfg st.is_quiet o.readOk o.fifoSrc (waitW cfg o.depthAt)
        st.partials m with
    | empty =>
      rw [hstep] at hsegeq
      simp only [segOfStep] at hsegeq
      subst hsegeq
      exact ⟨rfl, by simp⟩
    | abortFull =>
      have := hall m hmem
      rw [hstep] at this
      exact absurd this (by simp [goodOrEmpty])
    | abortRead =>
      have := hall m hmem
      rw [hstep] at this
      exact absurd this (by simp [goodOrEmpty])
    | abortCorrupt d =>
      have := hall m hmem
      rw [hstep] at this
      exact absurd this (by simp [goodOrEmpty])
    | good s newC =>
      rw [hstep] at hsegeq
      simp only [segOfStep] at hsegeq
      subst hsegeq
      unfold stepOf at hstep
      exact processMod_good_shape cfg st.is_quiet (o.readOk m)
        (wsOf o.fifoSrc m (waitW cfg o.depthAt m)) (waitW cfg o.depthAt m)
        (st.partials m) m s newC (by simp [wsOf]) hstep
  · rw [hmap]
    simp
  · intro k hk hlt
    have hget : segs.getD k [] =
        segOfStep k (stepOf cfg st.is_quiet o.readOk o.fifoSrc (waitW cfg o.depthAt)
          st.partials k) := by
      rw [hmap, List.getD_eq_getElem?_getD, List.getElem?_map, List.getElem?_range hk]
      rfl
    have hstep : stepOf cfg st.is_quiet o.readOk o.fifoSrc (waitW cfg o.depthAt)
        st.partials k = .empty := by
      unfold stepOf processMod
      rw [if_pos hlt]
    rw [hget, hstep]
    rfl

/-- Drain configuration of the concrete two-module witness run. -/
def cfgW2 : DrainCfg := ⟨2, 0, 100, 3, fun _ => 5⟩

/-- Hardware oracle of the witness run: module 0 has 4 FIFO words holding a
3-word and a 1-word event, module 1 has depth 1 (below `MIN_FIFO_READ`). -/
def oW2 : DrainOracle :=
  ⟨fun _ m => if m = 0 then 4 else 1, fun _ => true,
    fun m i => if m = 0 then (if i = 0 then 393296 else if i = 3 then 131152 else 8 + i)
      else 0⟩

/-- State of the witness run: acquisition running, everything else idle. -/
def stW2 : PollState :=
  ⟨false, false, false, false, false, true, false, false, false, false, false, false,
    ⟨⟨false, 0, 1, 0⟩, 1, false, false⟩, fun _ => []⟩

set_option maxRecDepth 4000 in
/-- Witness for C2: the concrete run emits `[[6, 0, …4 words…], [2, 1]]` and
the framing invariant holds for it. -/
theorem c2_witness :
    (readFIFO cfgW2 oW2 stW2).segs = some [[6, 0, 393296, 9, 10, 131152], [2, 1]] ∧
    ((∀ seg ∈ [[6, 0, 393296, 9, 10, 131152], [2, 1]],
        seg.headD 0 = seg.length ∧ 2 ≤ seg.length) ∧
      ([[6, 0, 393296, 9, 10, 131152], [2, 1]] : List (List Word)).length = cfgW2.nCards ∧
      (∀ k, k < cfgW2.nCards → waitW cfgW2 oW2.depthAt k < cfgW2.minFifoRead →
        ([[6, 0, 393296, 9, 10, 131152], [2, 1]] : List (List Word)).getD k [] = [2, k])) :=
  ⟨by decide, c2_segment_framing cfgW2 oW2 stW2 _ (by decide)⟩

/-- Claim C6: a drain pass that sees any module's FIFO depth at (or above)
`EXTERNAL_FIFO_LENGTH` sets `had_error` and `stop_acq` and returns false
without writing or broadcasting a spill.  The threshold and `MIN_FIFO_READ`
are below `EXTERNAL_FIFO_LENGTH` in any real configuration; both bounds are
hypotheses here. -/
theorem c6_full_fifo_abort (cfg : DrainCfg) (o : DrainOracle) (st : PollState) (m : Nat)
    (hacq : st.acq_running = true)
    (hm : m < cfg.nCards)
    (hfull : cfg.extFifoLen ≤ waitW cfg o.depthAt m)
    (hthresh : cfg.threshWords < cfg.extFifoLen)
    (hminle : cfg.minFifoRead ≤ cfg.extFifoLen) :
    (readFIFO cfg o st).ret = false ∧ (readFIFO cfg o st).st.had_error = true ∧
    (readFIFO cfg o st).st.stop_acq = true ∧ (readFIFO cfg o st).segs = none ∧
    (readFIFO cfg o st).wrote = false := by
  have hmax : cfg.threshWords < maxDepth (waitW cfg o.depthAt) cfg.nCards :=
    lt_of_lt_of_le (lt_of_lt_of_le hthresh hfull) (maxDepth_ge _ _ _ hm)
  have hread : ((decide (cfg.threshWords < maxDepth (waitW cfg o.depthAt) cfg.nCards)
      || st.stop_acq) || st.force_spill) = true := by simp [hmax]
  cases hdm : drainMods cfg st.is_quiet o.readOk o.fifoSrc (waitW cfg o.depthAt) st.partials
      (List.range cfg.nCards) with
  | ok v =>
    obtain ⟨segs, pts⟩ := v
    exfalso
    obtain ⟨hall, _⟩ := drainMods_ok_inv cfg st.is_quiet o.readOk o.fifoSrc
      (waitW cfg o.depthAt) (List.range cfg.nCards) st.partials segs pts
      (List.nodup_range cfg.nCards) hdm
    have hgm := hall m (List.mem_range.mpr hm)
    have hstep : stepOf cfg st.is_quiet o.readOk o.fifoSrc (waitW cfg o.depthAt)
        st.partials m = .abortFull := by
      unfold stepOf processMod
      rw [if_neg (by omega), if_pos hfull]
    rw [hstep] at hgm
    exact absurd hgm (by simp [goodOrEmpty])
  | error e =>
    obtain ⟨d, pts⟩ := e
    obtain ⟨h1, h2, h3, h4, h5, _⟩ := readFIFO_of_drain_error cfg o st d pts hacq hread hdm
    exact ⟨h1, h2, h3, h4, h5⟩

/-- Configuration of the full-FIFO witness: `EXTERNAL_FIFO_LENGTH = 10`. -/
def cfgW6 : DrainCfg := ⟨1, 5, 10, 1, fun _ => 5⟩

/-- Oracle of the full-FIFO witness: depth exactly `EXTERNAL_FIFO_LENGTH`. -/
def oW6 : DrainOracle := ⟨fun _ _ => 10, fun _ => true, fun _ _ => 0⟩

/-- Witness for C6 (with depth equal to `EXTERNAL_FIFO_LENGTH`). -/
theorem c6_witness :
    stW2.acq_running = true ∧ 0 < cfgW6.nCards ∧
    cfgW6.extFifoLen ≤ waitW cfgW6 oW6.depthAt 0 ∧
    cfgW6.threshWords < cfgW6.extFifoLen ∧ cfgW6.minFifoRead ≤ cfgW6.extFifoLen ∧
    ((readFIFO cfgW6 oW6 stW2).ret = false ∧ (readFIFO cfgW6 oW6 stW2).st.had_error = true ∧
      (readFIFO cfgW6 oW6 stW2).st.stop_acq = true ∧ (readFIFO cfgW6 oW6 stW2).segs = none ∧
      (readFIFO cfgW6 oW6 stW2).wrote = false) :=
  ⟨rfl, by decide, by decide, by decide, by decide,
    c6_full_fifo_abort cfgW6 oW6 stW2 0 rfl (by decide) (by decide) (by decide) (by decide)⟩

theorem range_split (n m : Nat) (hm : m < n) :
    ∃ l₂, List.range n = List.range m ++ m :: l₂ := by
  refine ⟨(List.map Nat.succ (List.range (n - m - 1))).map (fun i => m + i), ?_⟩
  rw [show n = m + (n - m - 1 + 1) by omega, List.range_add, List.range_succ_eq_map]
  simp

/-- Positions the event-parse loop of module `m` visits while walking a data
region of `n` words: the walk starts at 0 and, from a visited position whose
header passes all three invariant checks, advances by that header's event
size (ReadFIFO lines 1238-1269). -/
inductive ParseReach (cfg : DrainCfg) (m : Nat) (data : List Word) (n : Nat) : Nat → Prop where
  | zero : ParseReach cfg m data n 0
  | step (p : Nat) : ParseReach cfg m data n p → p < n →
      ¬ headerBad cfg m (wordAt data p) →
      ParseReach cfg m data n (p + eventSize (wordAt data p))

theorem parseLoop_es_irrel (cfg : DrainCfg) (m : Nat) (data : List Word) (n p es es' : Nat)
    (hp : p < n) :
    parseLoop cfg m data n p es = parseLoop cfg m data n p es' := by
  conv_lhs => rw [parseLoop_eq]
  conv_rhs => rw [parseLoop_eq]
  rw [if_pos hp, if_pos hp]

theorem parseLoop_through_reach (cfg : DrainCfg) (m : Nat) (data : List Word) (n : Nat) :
    ∀ (p₀ : Nat), ParseReach cfg m data n p₀ → p₀ < n →
      parseLoop cfg m data n 0 0 = parseLoop cfg m data n p₀ 0 := by
  intro p₀ h
  induction h with
  | zero =>
    intro _
    rfl
  | step p hreach hp hgood ih =>
    intro hp₀
    have h1 : ¬ slotRead (wordAt data p) ≠ cfg.slotOf m := fun hh => hgood (Or.inl hh)
    have h2 : ¬ 15 < chanRead (wordAt data p) := fun hh => hgood (Or.inr (Or.inl hh))
    have h3 : ¬ eventSize (wordAt data p) = 0 := fun hh => hgood (Or.inr (Or.inr hh))
    have hstep : parseLoop cfg m data n p 0 =
        parseLoop cfg m data n (p + eventSize (wordAt data p)) (eventSize (wordAt data p)) := by
      conv_lhs => rw [parseLoop_eq]
      rw [if_pos hp, if_neg h1, if_neg h2, if_neg h3]
    rw [ih hp, hstep]
    exact parseLoop_es_irrel cfg m data n (p + eventSize (wordAt data p))
      (eventSize (wordAt data p)) 0 hp₀

theorem parseLoop_stops_at_bad (cfg : DrainCfg) (m : Nat) (data : List Word) (n p₀ : Nat)
    (hreach : ParseReach cfg m data n p₀) (hp₀ : p₀ < n)
    (hbad : headerBad cfg m (wordAt data p₀)) :
    parseLoop cfg m data n 0 0 = (p₀, eventSize (wordAt data p₀)) := by
  rw [parseLoop_through_reach cfg m data n p₀ hreach hp₀]
  exact parseLoop_bad_stop cfg m data n p₀ 0 hp₀ hbad

theorem processMod_corrupt_of_reach (cfg : DrainCfg) (q ok : Bool) (ws : List Word) (W : Nat)
    (carry : List Word) (m p₀ : Nat)
    (hmin : ¬ W < cfg.minFifoRead) (hfull : ¬ cfg.extFifoLen ≤ W) (hok : ok = true)
    (hreach : ParseReach cfg m (carry ++ ws) (W + carry.length) p₀)
    (hp₀ : p₀ < W + carry.length)
    (hbad : headerBad cfg m (wordAt (carry ++ ws) p₀)) :
    processMod cfg q ok ws W carry m = .abortCorrupt (!q) ∧
    (parseLoop cfg m (carry ++ ws) (W + carry.length) 0 0).1 < W + carry.length := by
  have hres : parseLoop cfg m (carry ++ ws) (W + carry.length) 0 0 =
      (p₀, eventSize (wordAt (carry ++ ws) p₀)) :=
    parseLoop_stops_at_bad cfg m (carry ++ ws) (W + carry.length) p₀ hreach hp₀ hbad
  have hres1 : (parseLoop cfg m (carry ++ ws) (W + carry.length) 0 0).1 = p₀ := by
    rw [hres]
  constructor
  · simp only [processMod]
    rw [if_neg hmin, if_neg hfull, if_neg (by simp [hok]), hres1]
    rw [if_neg (by omega), if_pos hp₀]
  · rw [hres1]
    exact hp₀

/-- Claim C5 (amended): when any event header that module `m`'s parse walk
reaches violates an invariant (wrong slot, channel above 15, or zero event
size), the parse stops short of the segment end and the drain — entered
because the depth threshold was exceeded, or `stop_acq` was set, or
`force_spill` was set — takes the corruption branch: it sets `had_error`,
sets `stop_acq`, returns false, and dumps the first 100 words in hex when
NOT in quiet mode (the dump is gated on `is_quiet`, not on `debug_mode`).
Modules before `m` are assumed to drain without aborting, so that `m`'s
corruption is the abort the drain reports. -/
theorem c5_corruption_abort (cfg : DrainCfg) (o : DrainOracle) (st : PollState) (m p₀ : Nat)
    (hacq : st.acq_running = true)
    (hread : cfg.threshWords < maxDepth (waitW cfg o.depthAt) cfg.nCards ∨
      st.stop_acq = true ∨ st.force_spill = true)
    (hm : m < cfg.nCards)
    (hprev : ∀ k, k < m →
      goodOrEmpty (stepOf cfg st.is_quiet o.readOk o.fifoSrc (waitW cfg o.depthAt)
        st.partials k) = true)
    (hmin : ¬ waitW cfg o.depthAt m < cfg.minFifoRead)
    (hfull : ¬ cfg.extFifoLen ≤ waitW cfg o.depthAt m)
    (hok : o.readOk m = true)
    (hreach : ParseReach cfg m (st.partials m ++ wsOf o.fifoSrc m (waitW cfg o.depthAt m))
      (waitW cfg o.depthAt m + (st.partials m).length) p₀)
    (hp₀ : p₀ < waitW cfg o.depthAt m + (st.partials m).length)
    (hbad : headerBad cfg m
      (wordAt (st.partials m ++ wsOf o.fifoSrc m (waitW cfg o.depthAt m)) p₀)) :
    (parseLoop cfg m (st.partials m ++ wsOf o.fifoSrc m (waitW cfg o.depthAt m))
        (waitW cfg o.depthAt m + (st.partials m).length) 0 0).1 <
      waitW cfg o.depthAt m + (st.partials m).length ∧
    (readFIFO cfg o st).ret = false ∧ (readFIFO cfg o st).st.had_error = true ∧
    (readFIFO cfg o st).st.stop_acq = true ∧ (readFIFO cfg o st).segs = none ∧
    (readFIFO cfg o st).dumped = !st.is_quiet := by
  obtain ⟨hcor, hshort⟩ := processMod_corrupt_of_reach cfg st.is_quiet (o.readOk m)
    (wsOf o.fifoSrc m (waitW cfg o.depthAt m)) (waitW cfg o.depthAt m)
    (st.partials m) m p₀ hmin hfull hok hreach hp₀ hbad
  have hstep : stepOf cfg st.is_quiet o.readOk o.fifoSrc (waitW cfg o.depthAt)
      st.partials m = .abortCorrupt (!st.is_quiet) := by
    unfold stepOf
    exact hcor
  obtain ⟨l₂, hsplit⟩ := range_split cfg.nCards m hm
  obtain ⟨pts, hdm⟩ := drainMods_error_cons cfg st.is_quiet o.readOk o.fifoSrc
    (waitW cfg o.depthAt) m (!st.is_quiet) l₂ (List.range m) st.partials
    (List.nodup_range m) (by simp) (fun k hk => hprev k (List.mem_range.mp hk)) hstep
  rw [← hsplit] at hdm
  have hreadb : ((decide (cfg.threshWords < maxDepth (waitW cfg o.depthAt) cfg.nCards)
      || st.stop_acq) || st.force_spill) = true := by
    rcases hread with h | h | h <;> simp [h]
  obtain ⟨h1, h2, h3, h4, _, h6⟩ :=
    readFIFO_of_drain_error cfg o st (!st.is_quiet) pts hacq hreadb hdm
  exact ⟨hshort, h1, h2, h3, h4, h6⟩

/-- Configuration of the corruption runs: one module, expected slot 5. -/
def cfgC5 : DrainCfg := ⟨1, 0, 100, 1, fun _ => 5⟩

/-- Oracle of the corruption runs: depth 1, and the single FIFO word `0x40`
(slot 4, which is not the expected slot 5). -/
def oC5 : DrainOracle := ⟨fun _ _ => 1, fun _ => true, fun _ _ => 0x40⟩

/-- Quiet + debug state: acquisition running, `force_spill` set,
`is_quiet = true` and `debug_mode = true`. -/
def stC5 : PollState :=
  ⟨false, false, false, false, true, true, false, false, false, true, true, false,
    ⟨⟨false, 0, 1, 0⟩, 1, false, false⟩, fun _ => []⟩

/-- Counterexample to claim C5 as stated: a drain hitting the corruption
branch with `debug_mode = true` but `is_quiet = true` does NOT dump the
100-word hex block — the dump is controlled by quiet mode (line 1290:
`if (!is_quiet)`), not by debug mode. -/
theorem c5_counterexample :
    stC5.debug_mode = true ∧
    (readFIFO cfgC5 oC5 stC5).ret = false ∧
    (readFIFO cfgC5 oC5 stC5).st.had_error = true ∧
    (readFIFO cfgC5 oC5 stC5).st.stop_acq = true ∧
    (readFIFO cfgC5 oC5 stC5).dumped = false := by
  refine ⟨rfl, ?_, ?_, ?_, ?_⟩ <;> decide

/-- Oracle for the amended-C5 witness: depth 4; the FIFO words are a
well-formed 3-word event (`393296` = slot-5 header of size 3) followed by
the word `0x50` — a slot-5 header with ZERO event size, i.e. a violation in
the SECOND event header of the region. -/
def oC5b : DrainOracle :=
  ⟨fun _ _ => 4, fun _ => true,
    fun _ i => if i = 0 then 393296 else if i = 3 then 0x50 else 7 + i⟩

/-- Witness for the amended C5: a threshold-triggered drain (`force_spill`
and `stop_acq` both false, depth 4 above threshold 0) whose SECOND event
header has zero event size aborts with the dump (state is not quiet). -/
theorem c5_corruption_abort_witness :
    stW2.acq_running = true ∧
    (cfgC5.threshWords < maxDepth (waitW cfgC5 oC5b.depthAt) cfgC5.nCards ∨
      stW2.stop_acq = true ∨ stW2.force_spill = true) ∧
    0 < cfgC5.nCards ∧
    (3 : Nat) < waitW cfgC5 oC5b.depthAt 0 + (stW2.partials 0).length ∧
    headerBad cfgC5 0 (wordAt (stW2.partials 0 ++ wsOf oC5b.fifoSrc 0
      (waitW cfgC5 oC5b.depthAt 0)) 3) ∧
    ((parseLoop cfgC5 0 (stW2.partials 0 ++ wsOf oC5b.fifoSrc 0 (waitW cfgC5 oC5b.depthAt 0))
        (waitW cfgC5 oC5b.depthAt 0 + (stW2.partials 0).length) 0 0).1 <
      waitW cfgC5 oC5b.depthAt 0 + (stW2.partials 0).length ∧
      (readFIFO cfgC5 oC5b stW2).ret = false ∧
      (readFIFO cfgC5 oC5b stW2).st.had_error = true ∧
      (readFIFO cfgC5 oC5b stW2).st.stop_acq = true ∧
      (readFIFO cfgC5 oC5b stW2).segs = none ∧
      (readFIFO cfgC5 oC5b stW2).dumped = !stW2.is_quiet) :=
  ⟨rfl, Or.inl (by decide), by decide, by decide, by decide,
    c5_corruption_abort cfgC5 oC5b stW2 0 3 rfl (Or.inl (by decide)) (by decide)
      (fun k hk => absurd hk (Nat.not_lt_zero k)) (by decide) (by decide) rfl
      (ParseReach.step 0 ParseReach.zero (by decide) (by decide)) (by decide) (by decide)⟩

/-- Claim C1: when module `m`'s parse ends past the segment end
(`n < p`), the drain moves exactly the `eventSize − missingWords` present
words of the last event into the partial-event buffer, shortens the
module's effective word count `n[m]` by that `partialSize` (visible in the
emitted segment `[n − pS + 2, m, …first n − pS data words…]`), and on the
next drain of `m` the saved words are written immediately after the
module-index word, before the newly read FIFO words; when that drain's
parse completes exactly, the buffer is left cleared. -/
theorem c1_straddle_carry (cfg : DrainCfg) (q ok₁ ok₂ : Bool) (m W₁ W₂ : Nat)
    (ws₁ ws₂ carry₁ : List Word) (p es n₁ pS : Nat)
    (hws₁ : ws₁.length = W₁) (hws₂ : ws₂.length = W₂)
    (hn₁ : n₁ = W₁ + carry₁.length)
    (hmin₁ : ¬ W₁ < cfg.minFifoRead) (hfull₁ : ¬ cfg.extFifoLen ≤ W₁) (hok₁ : ok₁ = true)
    (hparse₁ : parseLoop cfg m (carry₁ ++ ws₁) n₁ 0 0 = (p, es))
    (hover : n₁ < p)
    (hpS : pS = es - (p - n₁))
    (hmin₂ : ¬ W₂ < cfg.minFifoRead) (hfull₂ : ¬ cfg.extFifoLen ≤ W₂) (hok₂ : ok₂ = true)
    (hparse₂ : (parseLoop cfg m ((carry₁ ++ ws₁).drop (n₁ - pS) ++ ws₂)
        (W₂ + ((carry₁ ++ ws₁).drop (n₁ - pS)).length) 0 0).1
        = W₂ + ((carry₁ ++ ws₁).drop (n₁ - pS)).length) :
    processMod cfg q ok₁ ws₁ W₁ carry₁ m =
      .good ((n₁ - pS + 2) :: m :: (carry₁ ++ ws₁).take (n₁ - pS))
        ((carry₁ ++ ws₁).drop (n₁ - pS)) ∧
    ((carry₁ ++ ws₁).drop (n₁ - pS)).length = pS ∧
    processMod cfg q ok₂ ws₂ W₂ ((carry₁ ++ ws₁).drop (n₁ - pS)) m =
      .good ((W₂ + pS + 2) :: m :: ((carry₁ ++ ws₁).drop (n₁ - pS) ++ ws₂)) [] := by
  subst hn₁
  have hlen : (carry₁ ++ ws₁).length = W₁ + carry₁.length := by
    simp [hws₁]
    omega
  have heslep : es ≤ p := by
    have := parseLoop_es_le cfg m (carry₁ ++ ws₁) (W₁ + carry₁.length)
      (W₁ + carry₁.length) 0 0 (by omega) (by omega)
    rw [hparse₁] at this
    exact this hover
  have hpSle : pS ≤ W₁ + carry₁.length := by omega
  have hdroplen : ((carry₁ ++ ws₁).drop (W₁ + carry₁.length - pS)).length = pS := by
    simp only [List.length_drop, hlen]
    omega
  refine ⟨?_, hdroplen, ?_⟩
  · simp only [processMod]
    rw [if_neg hmin₁, if_neg hfull₁, if_neg (by simp [hok₁]), hparse₁]
    rw [if_pos (by simpa using hover)]
    subst hpS
    rfl
  · simp only [processMod]
    rw [if_neg hmin₂, if_neg hfull₂, if_neg (by simp [hok₂])]
    have hnotlt : ¬ (W₂ + ((carry₁ ++ ws₁).drop (W₁ + carry₁.length - pS)).length <
        (parseLoop cfg m ((carry₁ ++ ws₁).drop (W₁ + carry₁.length - pS) ++ ws₂)
          (W₂ + ((carry₁ ++ ws₁).drop (W₁ + carry₁.length - pS)).length) 0 0).1) := by
      omega
    have hnotgt : ¬ ((parseLoop cfg m ((carry₁ ++ ws₁).drop (W₁ + carry₁.length - pS) ++ ws₂)
        (W₂ + ((carry₁ ++ ws₁).drop (W₁ + carry₁.length - pS)).length) 0 0).1 <
        W₂ + ((carry₁ ++ ws₁).drop (W₁ + carry₁.length - pS)).length) := by
      omega
    rw [if_neg hnotlt, if_neg hnotgt, hdroplen]

/-- Drain configuration of the straddle witness. -/
def cfgW1 : DrainCfg := ⟨1, 0, 1000, 1, fun _ => 5⟩

set_option maxRecDepth 2000 in
/-- Witness for C1.  First drain: 4 FIFO words `[h₃, 7, 8, h₃]` where
`h₃ = 393296` is a slot-5 header of event size 3 — the last event has only
its header present, so 1 word moves to the partial buffer and the segment is
`[5, 0, h₃, 7, 8]`.  Second drain: 2 new words `[21, 22]` complete the
event; the segment is `[5, 0, h₃, 21, 22]` with the saved word right after
the module word, and the partial buffer ends empty. -/
theorem c1_straddle_carry_witness :
    parseLoop cfgW1 0 ([] ++ [393296, 7, 8, 393296]) 4 0 0 = (6, 3) ∧
    (4 : Nat) < 6 ∧
    (processMod cfgW1 false true [393296, 7, 8, 393296] 4 [] 0 =
        .good ((4 - 1 + 2) :: 0 :: (([] ++ [393296, 7, 8, 393296]).take (4 - 1)))
          (([] ++ [393296, 7, 8, 393296]).drop (4 - 1)) ∧
      (([] ++ [393296, 7, 8, 393296]).drop (4 - 1)).length = 1 ∧
      processMod cfgW1 false true [21, 22] 2 (([] ++ [393296, 7, 8, 393296]).drop (4 - 1)) 0 =
        .good ((2 + 1 + 2) :: 0 :: (([] ++ [393296, 7, 8, 393296]).drop (4 - 1) ++ [21, 22]))
          []) :=
  ⟨by decide, by decide,
    c1_straddle_carry cfgW1 false true true 0 4 2 [393296, 7, 8, 393296] [21, 22] []
      6 3 4 1 (by decide) (by decide) rfl (by decide) (by decide) rfl (by decide)
      (by decide) (by decide) (by decide) (by decide) rfl (by decide)⟩

/-- Claim C4: a `write_data` call of `n` words on an open file whose size
would pass `2^32` with `4·n + 65552` more bytes first rotates — the current
file is closed and reopened as a continuation, so `run_number` is unchanged
and the suffix advances by one — and then the entire spill is written, as a
single write, to the new file; nothing is written to the old file. -/
theorem c4_rotation_before_write (o : FileOracle) (s : FileCtl) (n : Nat)
    (hopen : s.file.isOpen = true)
    (hceil : MAX_FILE_SIZE < s.file.filesize + (4 * n + 65552))
    (hok : o.openOk = true) :
    (write_data o n s).2 = [⟨s.file.runNumber, s.file.suffix + 1, n⟩] ∧
    (write_data o n s).1.file.runNumber = s.file.runNumber ∧
    (write_data o n s).1.file.suffix = s.file.suffix + 1 ∧
    (write_data o n s).1.file.filesize = 4 * n ∧
    (write_data o n s).1.record_data = s.record_data := by
  simp [write_data, close_output_file, open_output_file, openNewFile, hopen, hok, hceil]

/-- File state of the rotation witness: open file one byte under 4 GiB,
run number 7, suffix 0. -/
def sW4 : FileCtl := ⟨⟨true, 4294967295, 7, 0⟩, 8, true, true⟩

/-- Oracle of the rotation witness: opens succeed. -/
def oW4 : FileOracle := ⟨true, fun k => k⟩

/-- Witness for C4: writing one word rotates to `(run 7, suffix 1)` and the
whole spill lands in the new file. -/
theorem c4_witness :
    sW4.file.isOpen = true ∧
    MAX_FILE_SIZE < sW4.file.filesize + (4 * 1 + 65552) ∧
    oW4.openOk = true ∧
    ((write_data oW4 1 sW4).2 = [⟨7, 1, 1⟩] ∧
      (write_data oW4 1 sW4).1.file.runNumber = 7 ∧
      (write_data oW4 1 sW4).1.file.suffix = 1 ∧
      (write_data oW4 1 sW4).1.file.filesize = 4 * 1 ∧
      (write_data oW4 1 sW4).1.record_data = true) :=
  ⟨rfl, by decide, rfl, c4_rotation_before_write oW4 sW4 1 rfl (by decide) rfl⟩

/-- The failing-open oracle. -/
def oFail : FileOracle := ⟨false, fun k => k⟩

/-- The idle state (all flags down, no file open). -/
def stIdle : PollState := {}

/-- Counterexample to claim C9 as stated: a `run` command whose file open
fails does NOT lead to a started acquisition — `StartRun` returns false
before calling `StartAcq`, so `start_acq` is never raised (StartRun line
436: `if (!open_output_file()) return false;`). -/
theorem c9_counterexample :
    (StartRun oFail stIdle).1 = false ∧
    (StartRun oFail stIdle).2.start_acq = false ∧
    (StartRun oFail stIdle).2.acq_running = false ∧
    (StartRun oFail stIdle).2.fc.record_data = false :=
  ⟨rfl, rfl, rfl, rfl⟩

/-- Claim C9 (amended): whenever opening the output data file fails,
`record_data` is cleared.  When the failure happens inside `write_data`
(recording while no file is open, mid-acquisition), the write is skipped and
no run-control flag changes, so the acquisition continues without recording.
A `run` command whose file open fails, however, does not start an
acquisition: `StartRun` returns false and leaves `start_acq` untouched. -/
theorem c9_open_failure (o : FileOracle) (st : PollState) (s : FileCtl) (n : Nat)
    (hfail : o.openOk = false)
    (hmca : st.do_MCA_run = false) (hacq : st.acq_running = false)
    (hsopen : s.file.isOpen = false) :
    ((StartRun o st).1 = false ∧
      (StartRun o st).2.fc.record_data = false ∧
      (StartRun o st).2.start_acq = st.start_acq ∧
      (StartRun o st).2.acq_running = false) ∧
    ((write_data o n s).1.record_data = false ∧ (write_data o n s).2 = []) := by
  constructor
  · by_cases hof : st.fc.file.isOpen
    · simp [StartRun, open_output_file, openNewFile, close_output_file, hof, hfail, hmca, hacq]
    · simp [StartRun, open_output_file, openNewFile, close_output_file, hof, hfail, hmca, hacq]
  · simp [write_data, close_output_file, open_output_file, openNewFile, hsopen, hfail]
    split_ifs <;> simp_all

/-- Witness for the amended C9. -/
theorem c9_open_failure_witness :
    oFail.openOk = false ∧ stIdle.do_MCA_run = false ∧ stIdle.acq_running = false ∧
    stIdle.fc.file.isOpen = false ∧
    (((StartRun oFail stIdle).1 = false ∧
      (StartRun oFail stIdle).2.fc.record_data = false ∧
      (StartRun oFail stIdle).2.start_acq = stIdle.start_acq ∧
      (StartRun oFail stIdle).2.acq_running = false) ∧
     ((write_data oFail 0 stIdle.fc).1.record_data = false ∧
      (write_data oFail 0 stIdle.fc).2 = [])) :=
  ⟨rfl, rfl, rfl, rfl, c9_open_failure oFail stIdle stIdle.fc 0 rfl rfl rfl rfl⟩

theorem StartAcq_had_error (st : PollState) : (StartAcq st).2.had_error = st.had_error := by
  simp only [StartAcq]
  split_ifs <;> rfl

theorem StopAcq_had_error (st : PollState) : (StopAcq st).2.had_error = st.had_error := by
  simp only [StopAcq]
  split_ifs <;> rfl

theorem StopRun_had_error (st : PollState) : (StopRun st).2.had_error = st.had_error := by
  simp only [StopRun, StopAcq]
  split_ifs <;> rfl

theorem StartRun_had_error (o : FileOracle) (st : PollState) :
    (StartRun o st).2.had_error = st.had_error := by
  simp only [StartRun, StartAcq]
  split_ifs <;> rfl

theorem dispatch_had_error (o : FileOracle) (cmd : String) (st : PollState) :
    (dispatch o cmd st).had_error = st.had_error := by
  simp only [dispatch]
  by_cases h1 : cmd = "quit" ∨ cmd = "exit"
  · rw [if_pos h1]
    split_ifs <;> rfl
  rw [if_neg h1]
  by_cases h2 : cmd = "kill"
  · rw [if_pos h2]
    split_ifs <;> rfl
  rw [if_neg h2]
  by_cases h3 : cmd = "run"
  · rw [if_pos h3]
    exact StartRun_had_error o st
  rw [if_neg h3]
  by_cases h4 : cmd = "startacq" ∨ cmd = "startvme"
  · rw [if_pos h4]
    exact StartAcq_had_error st
  rw [if_neg h4]
  by_cases h5 : cmd = "stop"
  · rw [if_pos h5]
    exact StopRun_had_error st
  rw [if_neg h5]
  by_cases h6 : cmd = "stopacq" ∨ cmd = "stopvme"
  · rw [if_pos h6]
    exact StopAcq_had_error st
  rw [if_neg h6]
  by_cases h7 : cmd = "acq" ∨ cmd = "shm"
  · rw [if_pos h7]
  rw [if_neg h7]
  by_cases h8 : cmd = "reboot"
  · rw [if_pos h8]
    split_ifs <;> rfl
  rw [if_neg h8]
  by_cases h9 : cmd = "clo" ∨ cmd = "close"
  · rw [if_pos h9]
    split_ifs <;> rfl
  rw [if_neg h9]
  by_cases h10 : cmd = "hup" ∨ cmd = "spill"
  · rw [if_pos h10]
    split_ifs <;> rfl
  rw [if_neg h10]
  by_cases h11 : cmd = "debug"
  · rw [if_pos h11]
  rw [if_neg h11]
  by_cases h12 : cmd = "quiet"
  · rw [if_pos h12]
  rw [if_neg h12]
  by_cases h13 : cmd = "mca" ∨ cmd = "MCA"
  · rw [if_pos h13]
    split_ifs <;> rfl
  rw [if_neg h13]

/-- Claim C10: every non-empty command line that reaches the dispatcher —
including query-only commands like `status`, `help` and `version` —
unconditionally clears `had_error` before the command is dispatched, and no
dispatcher branch sets it again, so entering any command erases a previously
recorded error indication. -/
theorem c10_had_error_cleared (o : FileOracle) (line : String) (st : PollState)
    (h1 : line ≠ "") (h2 : line ≠ "CTRL_C")
    (h3 : (Char.ofNat 9) ∉ line.data) :
    (processLine o line st).had_error = false := by
  unfold processLine
  by_cases hd : line = "CTRL_D"
  · rw [if_pos hd]
    rw [if_neg (by decide), if_neg (by decide), if_neg (by decide)]
    rw [dispatch_had_error]
  · rw [if_neg hd]
    rw [if_neg h2, if_neg h3, if_neg h1]
    rw [dispatch_had_error]

/-- Witness for C10: a `status` query with `had_error` previously set leaves
`had_error` cleared. -/
theorem c10_witness :
    ("status" : String) ≠ "" ∧ ("status" : String) ≠ "CTRL_C" ∧
    (Char.ofNat 9) ∉ ("status" : String).data ∧
    (processLine oFail "status" { stIdle with had_error := true }).had_error = false :=
  ⟨by decide, by decide, by decide,
    c10_had_error_cleared oFail "status" { stIdle with had_error := true }
      (by decide) (by decide) (by decide)⟩

theorem readFIFO_preserves_acq (cfg : DrainCfg) (o : DrainOracle) (st : PollState) :
    (readFIFO cfg o st).st.acq_running = st.acq_running := by
  unfold readFIFO
  by_cases ha : st.acq_running = false
  · rw [if_pos ha]
  · rw [if_neg ha]
    by_cases hc :
        ((decide (cfg.threshWords < maxDepth (waitW cfg o.depthAt) cfg.nCards) || st.stop_acq)
          || st.force_spill) = true
    · rw [if_pos hc]
      cases hdm : drainMods cfg st.is_quiet o.readOk o.fifoSrc (waitW cfg o.depthAt)
          st.partials (List.range cfg.nCards) with
      | error e =>
        obtain ⟨d, pts⟩ := e
        simp [hdm]
      | ok v =>
        obtain ⟨sg, pts⟩ := v
        simp [hdm]
    · rw [if_neg hc]

theorem readFIFO_keeps_stop (cfg : DrainCfg) (o : DrainOracle) (st : PollState)
    (h : st.stop_acq = true) : (readFIFO cfg o st).st.stop_acq = true := by
  unfold readFIFO
  by_cases ha : st.acq_running = false
  · rw [if_pos ha]
    exact h
  · rw [if_neg ha]
    by_cases hc :
        ((decide (cfg.threshWords < maxDepth (waitW cfg o.depthAt) cfg.nCards) || st.stop_acq)
          || st.force_spill) = true
    · rw [if_pos hc]
      cases hdm : drainMods cfg st.is_quiet o.readOk o.fifoSrc (waitW cfg o.depthAt)
          st.partials (List.range cfg.nCards) with
      | error e =>
        obtain ⟨d, pts⟩ := e
        simp [hdm]
      | ok v =>
        obtain ⟨sg, pts⟩ := v
        simp [hdm, h]
    · rw [if_neg hc]
      exact h

theorem stopModule_acq (cfg : DrainCfg) (o : TickOracle) (m : Nat) (st : PollState) :
    (stopModule cfg o m st).1.acq_running = st.acq_running := by
  unfold stopModule
  by_cases h1 : o.runStatus1 m = 1 <;> by_cases h2 : o.runStatus2 m ≠ 0 <;>
    simp [h1, h2, readFIFO_preserves_acq]

theorem stopModules_acq (cfg : DrainCfg) (o : TickOracle) :
    ∀ (l : List Nat) (st : PollState),
      (stopModules cfg o l st).1.acq_running = st.acq_running := by
  intro l
  induction l with
  | nil => intro st; rfl
  | cons m rest ih =>
    intro st
    show (stopModules cfg o rest (stopModule cfg o m st).1).1.acq_running = st.acq_running
    rw [ih, stopModule_acq]

theorem tickReboot_keeps (o : TickOracle) (st : PollState)
    (ha : st.acq_running = true) (hs : st.stop_acq = true) :
    (tickReboot o st).1.acq_running = true ∧ (tickReboot o st).1.stop_acq = true := by
  by_cases h : st.do_reboot <;> simp [tickReboot, h, ha, hs]

theorem tickMCA_keeps (o : TickOracle) (st : PollState)
    (ha : st.acq_running = true) (hs : st.stop_acq = true) :
    (tickMCA o st).1.acq_running = true ∧ (tickMCA o st).1.stop_acq = true := by
  by_cases h : st.do_MCA_run <;> simp [tickMCA, h, ha, hs]

theorem tickStart_keeps (o : TickOracle) (st : PollState)
    (ha : st.acq_running = true) (hs : st.stop_acq = true) :
    (tickStart o st).1.acq_running = true ∧ (tickStart o st).1.stop_acq = true := by
  by_cases h : st.start_acq <;> simp [tickStart, h, ha, hs]

theorem tickAcq_ends (cfg : DrainCfg) (o : TickOracle) (st : PollState)
    (ha : st.acq_running = true) (hs : st.stop_acq = true) :
    (tickAcq cfg o st).1.acq_running = false ∧ Action.endRun ∈ (tickAcq cfg o st).2 := by
  unfold tickAcq
  rw [if_pos (by simp [ha])]
  have hstop : (readFIFO cfg o.drain st).st.stop_acq = true := readFIFO_keeps_stop _ _ _ hs
  rw [if_pos (by simp [hstop])]
  constructor
  · rw [stopModules_acq]
  · simp

theorem tickBody_exited (cfg : DrainCfg) (o : TickOracle) (st : PollState) :
    (tickBody cfg o st).exited = false := rfl

theorem tickBody_ends (cfg : DrainCfg) (o : TickOracle) (st : PollState)
    (ha : st.acq_running = true) (hs : st.stop_acq = true) :
    (tickBody cfg o st).st.acq_running = false ∧
    Action.endRun ∈ (tickBody cfg o st).actions := by
  obtain ⟨ha1, hs1⟩ := tickReboot_keeps o st ha hs
  obtain ⟨ha2, hs2⟩ := tickMCA_keeps o _ ha1 hs1
  obtain ⟨ha3, hs3⟩ := tickStart_keeps o _ ha2 hs2
  obtain ⟨hend, hmem⟩ := tickAcq_ends cfg o _ ha3 hs3
  exact ⟨hend, by
    show Action.endRun ∈ _ ++ _ ++ _ ++ (tickAcq cfg o _).2
    simp [hmem]⟩

/-- Claim C8: on every run-control tick `kill_all` is examined before any
other request.  If `kill_all` is set while the acquisition is not running,
the loop exits within that tick, `run_ctrl_exit` is set, and no reboot, MCA,
start, or acquisition work happens (the action list is empty).  If
`kill_all` is set while the acquisition is running, the tick proceeds as the
normal body with `stop_acq` forced, does not exit, and in fact ends the run
within the same tick (`EndRun` is performed and `acq_running` falls). -/
theorem c8_kill_all_priority (cfg : DrainCfg) (o : TickOracle) (st : PollState) :
    (tick cfg o { st with kill_all := true, acq_running := false } =
      ⟨true, { st with kill_all := true, acq_running := false, run_ctrl_exit := true }, []⟩) ∧
    (tick cfg o { st with kill_all := true, acq_running := true } =
      tickBody cfg o { st with kill_all := true, acq_running := true, stop_acq := true }) ∧
    (tick cfg o { st with kill_all := true, acq_running := true }).exited = false ∧
    (tick cfg o { st with kill_all := true, acq_running := true }).st.acq_running = false ∧
    Action.endRun ∈ (tick cfg o { st with kill_all := true, acq_running := true }).actions := by
  refine ⟨rfl, rfl, ?_, ?_, ?_⟩
  · exact tickBody_exited cfg o _
  · exact (tickBody_ends cfg o
      { st with kill_all := true, acq_running := true, stop_acq := true } rfl rfl).1
  · exact (tickBody_ends cfg o
      { st with kill_all := true, acq_running := true, stop_acq := true } rfl rfl).2

end Poll2
